import Mathlib

/-!
Verification of the metric-processing pipeline of the `fink` repository
(`src/processUtils.js`).

The JavaScript source is shallowly embedded:

* JS numbers are modelled by `JsNum`: an exact rational (`fin`), signed
  infinity (`inf`), or `nan`.  Rational arithmetic is implemented by
  explicitly normalising fractions (`qmk`), so every operation reduces
  inside the kernel; floating-point rounding is not modelled.
* JS calendar dates (`new Date(...)` of an ISO `YYYY-MM-DD` string) are
  modelled by `JDate` (year / month / day) with the lexicographic order,
  which agrees with both the chronological order and the string order of
  ISO date strings.  Keys of date-keyed JSON objects are modelled as
  already-parsed `JDate`s.
* JSON documents are modelled by `JVal`; plain objects are association
  lists in insertion order, matching JS object key iteration order for
  non-integer-like keys.  Primitive values carry no own properties
  (implicit properties of JS primitives, such as `"".length`, are not
  modelled).
* `null` fields of series points are modelled with `Option`.
-/

namespace Fink

/-! ## Calendar dates -/

/-- A parsed calendar date: year, month, day, compared lexicographically
(the order of ISO `YYYY-MM-DD` strings). -/
structure JDate where
  y : ℤ
  m : ℕ
  d : ℕ
deriving DecidableEq, Repr

/-- `a <= b` on dates, as compared by JS `Date` objects. -/
def JDate.le (a b : JDate) : Bool :=
  decide (a.y < b.y) ||
    (decide (a.y = b.y) &&
      (decide (a.m < b.m) || (decide (a.m = b.m) && decide (a.d ≤ b.d))))

/-- `a < b` on dates, as compared by JS `Date` objects. -/
def JDate.lt (a b : JDate) : Bool :=
  decide (a.y < b.y) ||
    (decide (a.y = b.y) &&
      (decide (a.m < b.m) || (decide (a.m = b.m) && decide (a.d < b.d))))

theorem JDate.le_iff (a b : JDate) :
    JDate.le a b = true ↔
      a.y < b.y ∨ (a.y = b.y ∧ (a.m < b.m ∨ (a.m = b.m ∧ a.d ≤ b.d))) := by
  simp [JDate.le]

theorem JDate.lt_iff (a b : JDate) :
    JDate.lt a b = true ↔
      a.y < b.y ∨ (a.y = b.y ∧ (a.m < b.m ∨ (a.m = b.m ∧ a.d < b.d))) := by
  simp [JDate.lt]

theorem JDate.le_refl (a : JDate) : JDate.le a a = true := by
  simp [JDate.le_iff]

theorem JDate.le_trans {a b c : JDate} (h1 : JDate.le a b = true)
    (h2 : JDate.le b c = true) : JDate.le a c = true := by
  rw [JDate.le_iff] at h1 h2 ⊢; omega

theorem JDate.le_total (a b : JDate) :
    JDate.le a b = true ∨ JDate.le b a = true := by
  rw [JDate.le_iff, JDate.le_iff]; omega

theorem JDate.le_antisymm {a b : JDate} (h1 : JDate.le a b = true)
    (h2 : JDate.le b a = true) : a = b := by
  rw [JDate.le_iff] at h1 h2
  rcases a with ⟨ay, am, ad⟩
  rcases b with ⟨by_, bm, bd⟩
  simp only [JDate.mk.injEq]
  simp only at h1 h2
  omega

theorem JDate.lt_iff_not_le {a b : JDate} :
    JDate.lt a b = true ↔ ¬ JDate.le b a = true := by
  rw [JDate.lt_iff, JDate.le_iff]; omega

/-! ## Kernel-computable rational arithmetic

Mathlib's `Rat` operations do not reduce inside the kernel, so the
embedding normalises fractions explicitly with `Nat.gcd` (which does
reduce).  `qmk n d` is the rational `n / d` for `d ≠ 0`. -/

/-- Build the reduced rational `n / d`; returns `0` when `d = 0`
(that case is never reached by the embedding). -/
def qmk (n : ℤ) (d : ℕ) : ℚ :=
  if hd : d = 0 then 0
  else
    have hg : n.natAbs.gcd d ≠ 0 := fun h => hd (Nat.eq_zero_of_gcd_eq_zero_right h)
    have hdvd : n.natAbs.gcd d ∣ d := Nat.gcd_dvd_right _ _
    have hpos : 0 < d / n.natAbs.gcd d :=
      Nat.div_pos (Nat.le_of_dvd (Nat.pos_of_ne_zero hd) hdvd) (Nat.pos_of_ne_zero hg)
    have hcop : (n.natAbs / n.natAbs.gcd d).Coprime (d / n.natAbs.gcd d) :=
      Nat.coprime_div_gcd_div_gcd (Nat.pos_of_ne_zero hg)
    if hn : n < 0 then
      ⟨-(Int.ofNat (n.natAbs / n.natAbs.gcd d)), d / n.natAbs.gcd d, hpos.ne',
        by rw [Int.natAbs_neg]; exact hcop⟩
    else
      ⟨Int.ofNat (n.natAbs / n.natAbs.gcd d), d / n.natAbs.gcd d, hpos.ne',
        hcop⟩

theorem qmk_self (q : ℚ) : qmk q.num q.den = q := by
  have hden := q.den_nz
  have hred : q.num.natAbs.gcd q.den = 1 := q.reduced
  rw [qmk, dif_neg hden]
  split
  · next hn =>
      refine Rat.ext ?_ ?_
      · simp only [hred, Nat.div_one, Int.ofNat_eq_natCast]; omega
      · simp [hred]
  · next hn =>
      refine Rat.ext ?_ ?_
      · simp only [hred, Nat.div_one, Int.ofNat_eq_natCast]; omega
      · simp [hred]

/-- Exact rational addition (explicit normalisation). -/
def qadd (a b : ℚ) : ℚ := qmk (a.num * b.den + b.num * a.den) (a.den * b.den)

/-- Exact rational subtraction (explicit normalisation). -/
def qsub (a b : ℚ) : ℚ := qmk (a.num * b.den - b.num * a.den) (a.den * b.den)

/-- Exact rational multiplication (explicit normalisation). -/
def qmul (a b : ℚ) : ℚ := qmk (a.num * b.num) (a.den * b.den)

/-- Exact rational division (explicit normalisation); `0` when `b = 0`
(guarded away by every caller). -/
def qdiv (a b : ℚ) : ℚ :=
  if b.num = 0 then 0
  else qmk ((if b.num < 0 then -a.num else a.num) * b.den) (a.den * b.num.natAbs)

/-- Exact rational negation. -/
def qneg (a : ℚ) : ℚ :=
  ⟨-a.num, a.den, a.den_nz, by rw [Int.natAbs_neg]; exact a.reduced⟩

theorem qmul_one (a : ℚ) : qmul a 1 = a := by
  have h1 : (1 : ℚ).num = 1 := rfl
  have h2 : (1 : ℚ).den = 1 := rfl
  rw [qmul, h1, h2, mul_one, Nat.mul_one, qmk_self]

/-! ## JS numbers -/

/-- A JS number: an exact finite rational, a signed infinity, or `NaN`. -/
inductive JsNum where
  | fin (q : ℚ)
  | inf (pos : Bool)
  | nan
deriving DecidableEq, Repr

/-- JS `isNaN`. -/
def JsNum.isNaNb : JsNum → Bool
  | .nan => true
  | _ => false

/-- JS `isFinite`. -/
def JsNum.isFiniteb : JsNum → Bool
  | .fin _ => true
  | _ => false

/-- The sign bit used by JS multiplication/division of signed infinities. -/
def JsNum.negb : JsNum → Bool
  | .fin q => decide (q < 0)
  | .inf b => !b
  | .nan => false

/-- JS unary negation. -/
def jsNeg : JsNum → JsNum
  | .fin q => .fin (qneg q)
  | .inf b => .inf (!b)
  | .nan => .nan

/-- JS addition. -/
def jsAdd : JsNum → JsNum → JsNum
  | .nan, _ => .nan
  | _, .nan => .nan
  | .fin a, .fin b => .fin (qadd a b)
  | .fin _, .inf b => .inf b
  | .inf a, .fin _ => .inf a
  | .inf a, .inf b => if a = b then .inf a else .nan

/-- JS subtraction. -/
def jsSub (a b : JsNum) : JsNum := jsAdd a (jsNeg b)

/-- JS multiplication. -/
def jsMul : JsNum → JsNum → JsNum
  | .nan, _ => .nan
  | _, .nan => .nan
  | .fin a, .fin b => .fin (qmul a b)
  | .inf s, .fin q => if q = 0 then .nan else .inf (!(xor (!s) (decide (q < 0))))
  | .fin q, .inf s => if q = 0 then .nan else .inf (!(xor (decide (q < 0)) (!s)))
  | .inf s, .inf t => .inf (s == t)

/-- JS division. -/
def jsDiv : JsNum → JsNum → JsNum
  | .nan, _ => .nan
  | _, .nan => .nan
  | .fin a, .fin b =>
      if b = 0 then (if a = 0 then .nan else .inf (decide (0 < a)))
      else .fin (qdiv a b)
  | .inf s, .fin q => .inf (!(xor (!s) (decide (q < 0))))
  | .fin _, .inf _ => .fin 0
  | .inf _, .inf _ => .nan

theorem jsMul_one (a : JsNum) (h : a.isNaNb = false) : jsMul a (.fin 1) = a := by
  cases a with
  | fin q =>
      have h1 : ¬ (1 : ℚ) = 0 := one_ne_zero
      simp [jsMul, qmul_one]
  | inf b =>
      have h1 : ¬ (1 : ℚ) = 0 := one_ne_zero
      have h2 : ¬ (1 : ℚ) < 0 := by norm_num
      simp [jsMul, h1, h2]
  | nan => simp [JsNum.isNaNb] at h

/-! ## JSON values and the path extractor -/

/-- A decoded JSON value.  Objects are association lists in insertion
order; primitives carry no own properties. -/
inductive JVal where
  | null
  | bool (b : Bool)
  | num (q : ℚ)
  | str (s : String)
  | arr (xs : List JVal)
  | obj (fields : List (String × JVal))

/-- JS truthiness of a possibly-`undefined` value (`none` is `undefined`). -/
def truthy : Option JVal → Bool
  | none => false
  | some .null => false
  | some (.bool b) => b
  | some (.num q) => decide (q ≠ 0)
  | some (.str s) => decide (s ≠ "")
  | some (.arr _) => true
  | some (.obj _) => true

/-- First binding of a key in an association list (JS objects have unique
keys, so the first binding is the binding). -/
def assocFirst {κ α : Type} [DecidableEq κ] (m : List (κ × α)) (k : κ) : Option α :=
  (m.find? (fun p => decide (p.1 = k))).map (·.2)

/-- A canonical array/string index key: `"0"`, or a nonzero digit
followed by digits (JS owns `'xy'[0]` but not `'xy'['00']`). -/
def canonIndex (key : String) : Option ℕ :=
  match key.data with
  | [] => none
  | c :: cs =>
      if (c.isDigit && !(c = '0' && !cs.isEmpty)
          && cs.all (fun d => d.isDigit)) = true then
        some ((c :: cs).foldl (fun acc d => acc * 10 + (d.toNat - 48)) 0)
      else none

/-- JS `hasOwnProperty` on a possibly-`undefined` value.  Objects own
their keys; arrays own `length` and their in-bounds canonical index keys;
strings own `length` and their in-bounds canonical index keys (so the
empty string still owns `length`); other primitives own nothing. -/
def hasOwn (v : Option JVal) (key : String) : Bool :=
  match v with
  | some (.obj fields) => fields.any (fun p => decide (p.1 = key))
  | some (.arr xs) =>
      decide (key = "length") ||
        match canonIndex key with
        | some i => decide (i < xs.length)
        | none => false
  | some (.str s) =>
      decide (key = "length") ||
        match canonIndex key with
        | some i => decide (i < s.data.length)
        | none => false
  | _ => false

/-- JS property read `v[key]` on a possibly-`undefined` value (for the
own properties modelled by `hasOwn`; a string index reads the one-character
string, `length` reads the element count). -/
def getVal (v : Option JVal) (key : String) : Option JVal :=
  match v with
  | some (.obj fields) => assocFirst fields key
  | some (.arr xs) =>
      if key = "length" then some (.num (xs.length : ℚ))
      else
        match canonIndex key with
        | some i => xs.get? i
        | none => none
  | some (.str s) =>
      if key = "length" then some (.num (s.data.length : ℚ))
      else
        match canonIndex key with
        | some i => (s.data.get? i).map (fun c => .str (String.mk [c]))
        | none => none
  | _ => none

/-- `getNestedValue(obj, path)` from `processUtils.js`:
`path.reduce((acc, key) => (acc && acc.hasOwnProperty(key)) ? acc[key] : undefined, obj)`. -/
def getNestedValue (obj : Option JVal) (path : List String) : Option JVal :=
  path.foldl
    (fun acc key => if truthy acc && hasOwn acc key then getVal acc key else none)
    obj

/-- Modelled from the spec (§4.1): walk `root` following `path`, returning
`undefined` the instant any intermediate value lacks the next key as an
own property, and otherwise the value reached by the full path. -/
def followPath (v : Option JVal) : List String → Option JVal
  | [] => v
  | k :: ks => if hasOwn v k then followPath (getVal v k) ks else none

theorem getNestedValue_none (path : List String) :
    getNestedValue none path = none := by
  induction path with
  | nil => rfl
  | cons k ks ih =>
      have h : truthy (none : Option JVal) = false := rfl
      simpa [getNestedValue, h] using ih

/-- C9 counterexample: at root `{a: ""}` with path `["a", "length"]` the
source function returns `undefined`, although the intermediate `""` does
own `length` (value `0`): the truthiness guard fires on the falsy — but
property-owning — empty string, so `getNestedValue` does not return the
value reached by following the full path of own properties. -/
theorem getNestedValue_claim_counterexample :
    getNestedValue (some (.obj [("a", .str "")])) ["a", "length"] = none ∧
    hasOwn (some (.str "")) "length" = true ∧
    followPath (some (.obj [("a", .str "")])) ["a", "length"] =
      some (.num ((0 : ℕ) : ℚ)) :=
  ⟨rfl, rfl, rfl⟩

/-- C9 (amended): `getNestedValue` is total and returns `undefined` as
soon as the accumulated value is falsy (`undefined`, `null`, `false`, `0`,
`""`) or lacks the next key as an own property; when every intermediate
value that owns its next key is also truthy — which fails only for the
empty string, the one falsy JSON value owning a property — it returns the
value reached by following the full path of own properties. -/
theorem getNestedValue_spec (obj : Option JVal) (path : List String)
    (h : ∀ i, i < path.length →
      hasOwn (followPath obj (path.take i)) (path.getD i "") = true →
      truthy (followPath obj (path.take i)) = true) :
    getNestedValue obj path = followPath obj path := by
  induction path generalizing obj with
  | nil => rfl
  | cons k ks ih =>
      have hunf : getNestedValue obj (k :: ks) =
          getNestedValue (if truthy obj && hasOwn obj k then getVal obj k else none) ks := rfl
      by_cases hk : hasOwn obj k = true
      · have ht : truthy obj = true := by
          have h0 := h 0 (by simp)
          simpa [followPath] using h0 (by simpa [followPath] using hk)
        rw [hunf, followPath, if_pos hk]
        rw [ht, hk]
        refine Eq.trans (by rfl) (ih (getVal obj k) ?_)
        intro i hi hown
        have hstep : followPath obj ((k :: ks).take (i + 1)) =
            followPath (getVal obj k) (ks.take i) := by
          rw [List.take_succ_cons, followPath, if_pos hk]
        have := h (i + 1) (by simpa using hi)
        rw [hstep] at this
        exact this (by simpa using hown)
      · have h2 : (truthy obj && hasOwn obj k) = false := by
          rcases Bool.eq_false_or_eq_true (truthy obj) with ht | ht <;>
            simp [ht, Bool.eq_false_iff.mpr hk]
        rw [hunf, followPath, if_neg hk, h2]
        simpa using getNestedValue_none ks

/-- Witness for C9 (amended): a two-level object path on which every
intermediate is truthy, so the walk reaches the leaf `5`. -/
theorem getNestedValue_spec_witness :
    (∀ i, i < (["a", "b"] : List String).length →
      hasOwn (followPath (some (.obj [("a", .obj [("b", .num (5 : ℚ))])]))
        ((["a", "b"] : List String).take i)) ((["a", "b"] : List String).getD i "") = true →
      truthy (followPath (some (.obj [("a", .obj [("b", .num (5 : ℚ))])]))
        ((["a", "b"] : List String).take i)) = true) ∧
    getNestedValue (some (.obj [("a", .obj [("b", .num (5 : ℚ))])])) ["a", "b"] =
      followPath (some (.obj [("a", .obj [("b", .num (5 : ℚ))])])) ["a", "b"] :=
  ⟨by decide, getNestedValue_spec (some (.obj [("a", .obj [("b", .num (5 : ℚ))])]))
    ["a", "b"] (by decide)⟩

/-! ## Series points and sorting by date

JS `[...data].sort((a, b) => new Date(a.date) - new Date(b.date))` is a
stable ascending sort by date; it is modelled by `List.insertionSort`
(stable, structurally recursive). -/

/-- A series point `{date, value}` whose value may be `null`. -/
structure NPt where
  date : JDate
  value : Option JsNum
deriving DecidableEq, Repr

/-- A series point `{date, value}` with a numeric value. -/
structure FPt where
  date : JDate
  value : JsNum
deriving DecidableEq, Repr

/-- Date order on nullable points. -/
abbrev byDateN (a b : NPt) : Prop := JDate.le a.date b.date = true

/-- Date order on numeric points. -/
abbrev byDateF (a b : FPt) : Prop := JDate.le a.date b.date = true

/-- Date order on bare dates. -/
abbrev byDateD (a b : JDate) : Prop := JDate.le a b = true

instance : IsTotal NPt byDateN := ⟨fun a b => JDate.le_total a.date b.date⟩

instance : IsTrans NPt byDateN := ⟨fun _ _ _ => JDate.le_trans⟩

instance : IsTotal FPt byDateF := ⟨fun a b => JDate.le_total a.date b.date⟩

instance : IsTrans FPt byDateF := ⟨fun _ _ _ => JDate.le_trans⟩

instance : IsTotal JDate byDateD := ⟨fun a b => JDate.le_total a b⟩

instance : IsTrans JDate byDateD := ⟨fun _ _ _ => JDate.le_trans⟩

/-- Stable ascending sort by date of a nullable-point series. -/
def sortNPts (l : List NPt) : List NPt := List.insertionSort byDateN l

/-- Stable ascending sort by date of a numeric-point series. -/
def sortFPts (l : List FPt) : List FPt := List.insertionSort byDateF l

/-- Ascending sort of a list of dates (JS `Object.keys(...).sort()`, whose
string order on ISO date strings is the chronological order). -/
def sortDates (l : List JDate) : List JDate := List.insertionSort byDateD l

/-! ## TTM aggregation (`calculateTTM`) -/

/-- Default point used to model JS array indexing that is always in
bounds. -/
def fdflt : FPt := ⟨⟨0, 0, 0⟩, .fin 0⟩

/-- `calculateTTM` from `processUtils.js`: fewer than 4 points yields `[]`;
otherwise sort ascending by date and, for `i` from 3 to `n-1`, emit
`{date: s[i].date, value: s[i].value + s[i-1].value + s[i-2].value + s[i-3].value}`. -/
def calculateTTM (data : List FPt) : List FPt :=
  if data.length < 4 then []
  else
    let sortedData := sortFPts data
    (List.range (sortedData.length - 3)).map (fun k =>
      { date := (sortedData.getD (k + 3) fdflt).date,
        value := jsAdd (jsAdd (jsAdd (sortedData.getD (k + 3) fdflt).value
          ((sortedData.getD (k + 2) fdflt).value)) ((sortedData.getD (k + 1) fdflt).value))
          ((sortedData.getD k fdflt).value) })

/-! ## Forward-fill interpolation (`interpolateData`) -/

/-- The cursor loop of `interpolateData`: consume every source point whose
date is `<=` the target date, remembering the last consumed value. -/
def advanceSrc (t : JDate) : List NPt → Option JsNum → List NPt × Option JsNum
  | [], last => ([], last)
  | p :: rest, last =>
      if JDate.le p.date t then advanceSrc t rest p.value else (p :: rest, last)

/-- The per-target-date loop of `interpolateData`.  `firstDate` is the date
of the first point of the sorted source (`sortedSource[0].date`), only
inspected when `lastValue` is non-null, hence when the source is
non-empty. -/
def interpGo (firstDate : Option JDate) : List JDate → List NPt → Option JsNum → List NPt
  | [], _, _ => []
  | t :: ts, src, last =>
      ⟨t, if (advanceSrc t src last).2.isNone || (match firstDate with
            | some fd => JDate.lt t fd
            | none => false) then none
          else (advanceSrc t src last).2⟩ ::
        interpGo firstDate ts (advanceSrc t src last).1 (advanceSrc t src last).2

/-- `interpolateData` from `processUtils.js` (forward-fill onto a target
date axis). -/
def interpolateData (sourceData : List NPt) (targetDates : List JDate) : List NPt :=
  interpGo (((sortNPts sourceData).head?).map NPt.date) targetDates (sortNPts sourceData) none

/-- Modelled from the spec: of a candidate point and a possibly-absent
second candidate, the one with the later date. -/
def laterOf (p : NPt) : Option NPt → NPt
  | none => p
  | some q => if JDate.lt q.date p.date then p else q

/-- Modelled from the spec: the latest source point whose date is on or
before `t`, if any. -/
def latestAtOrBefore (t : JDate) : List NPt → Option NPt
  | [] => none
  | p :: rest =>
      if JDate.le p.date t then some (laterOf p (latestAtOrBefore t rest))
      else latestAtOrBefore t rest

/-- Modelled from the spec: the forward-filled value at a target date:
`null` before the first source date, otherwise the value of the latest
source point at or before the target. -/
def fwdFillValue (src : List NPt) (t : JDate) : Option JsNum :=
  match latestAtOrBefore t src with
  | none => none
  | some p => p.value

theorem JDate.le_of_lt {a b : JDate} (h : JDate.lt a b = true) :
    JDate.le a b = true := by
  rw [JDate.lt_iff] at h; rw [JDate.le_iff]; omega

theorem advanceSrc_comp {t' t : JDate} (h : JDate.le t' t = true) :
    ∀ (src : List NPt) (last : Option JsNum),
      advanceSrc t (advanceSrc t' src last).1 (advanceSrc t' src last).2 =
        advanceSrc t src last
  | [], _ => rfl
  | p :: rest, last => by
      by_cases hp : JDate.le p.date t' = true
      · have hpt : JDate.le p.date t = true := JDate.le_trans hp h
        simp only [advanceSrc, if_pos hp, if_pos hpt]
        exact advanceSrc_comp h rest p.value
      · simp only [advanceSrc, if_neg hp]

theorem latestAtOrBefore_mem {t : JDate} :
    ∀ {l : List NPt} {p : NPt}, latestAtOrBefore t l = some p →
      p ∈ l ∧ JDate.le p.date t = true := by
  intro l
  induction l with
  | nil => intro p h; simp [latestAtOrBefore] at h
  | cons q rest ih =>
      intro p h
      by_cases hq : JDate.le q.date t = true
      · rw [latestAtOrBefore, if_pos hq] at h
        rcases hr : latestAtOrBefore t rest with _ | q2
        · rw [hr] at h
          simp only [laterOf, Option.some.injEq] at h
          subst h
          exact ⟨List.mem_cons_self _ _, hq⟩
        · rw [hr] at h
          simp only [laterOf, Option.some.injEq] at h
          rcases ih hr with ⟨hm, hle⟩
          by_cases hlt : JDate.lt q2.date q.date = true
          · rw [if_pos hlt] at h; subst h
            exact ⟨List.mem_cons_self _ _, hq⟩
          · rw [if_neg hlt] at h; subst h
            exact ⟨List.mem_cons_of_mem _ hm, hle⟩
      · rw [latestAtOrBefore, if_neg hq] at h
        rcases ih h with ⟨hm, hle⟩
        exact ⟨List.mem_cons_of_mem _ hm, hle⟩

theorem latestAtOrBefore_none_iff {t : JDate} {l : List NPt} :
    latestAtOrBefore t l = none ↔ ∀ p ∈ l, ¬ JDate.le p.date t = true := by
  induction l with
  | nil => simp [latestAtOrBefore]
  | cons q rest ih =>
      by_cases hq : JDate.le q.date t = true
      · rw [latestAtOrBefore, if_pos hq]
        simp only [List.mem_cons]
        constructor
        · intro h; cases h
        · intro h; exact absurd hq (h q (Or.inl rfl))
      · rw [latestAtOrBefore, if_neg hq]
        rw [ih]
        simp only [List.mem_cons]
        constructor
        · rintro h p (rfl | hp)
          · exact hq
          · exact h p hp
        · intro h p hp
          exact h p (Or.inr hp)

theorem advanceSrc_snd {t : JDate} :
    ∀ {l : List NPt}, List.Pairwise byDateN l → ∀ (last : Option JsNum),
      (advanceSrc t l last).2 =
        match latestAtOrBefore t l with
        | none => last
        | some p => p.value := by
  intro l
  induction l with
  | nil => intro _ last; rfl
  | cons p rest ih =>
      intro hpw last
      have hp : ∀ q ∈ rest, byDateN p q := fun q hq => List.rel_of_pairwise_cons hpw hq
      have hrest : List.Pairwise byDateN rest := hpw.of_cons
      by_cases hle : JDate.le p.date t = true
      · rw [advanceSrc, if_pos hle, latestAtOrBefore, if_pos hle]
        rw [ih hrest p.value]
        rcases hr : latestAtOrBefore t rest with _ | q
        · simp [laterOf]
        · have hq := latestAtOrBefore_mem hr
          have hpq : JDate.le p.date q.date = true := hp q hq.1
          have hnlt : ¬ JDate.lt q.date p.date = true := fun hlt =>
            (JDate.lt_iff_not_le.mp hlt) hpq
          simp [laterOf, if_neg hnlt]
      · rw [advanceSrc, if_neg hle, latestAtOrBefore, if_neg hle]
        have hnone : latestAtOrBefore t rest = none := by
          rw [latestAtOrBefore_none_iff]
          intro q hq hqt
          exact hle (JDate.le_trans (hp q hq) hqt)
        rw [hnone]

theorem eq_of_mem_uniqueDates :
    ∀ {l : List NPt}, List.Pairwise (fun a b : NPt => a.date ≠ b.date) l →
      ∀ {p q : NPt}, p ∈ l → q ∈ l → p.date = q.date → p = q := by
  intro l
  induction l with
  | nil => intro _ p q hp; cases hp
  | cons a rest ih =>
      intro hu p q hp hq hdate
      have ha : ∀ r ∈ rest, a.date ≠ r.date := fun r hr => List.rel_of_pairwise_cons hu hr
      rcases List.mem_cons.mp hp with rfl | hp2
      · rcases List.mem_cons.mp hq with rfl | hq2
        · rfl
        · exact absurd hdate (ha q hq2)
      · rcases List.mem_cons.mp hq with rfl | hq2
        · exact absurd hdate.symm (ha p hp2)
        · exact ih hu.of_cons hp2 hq2 hdate

theorem latestAtOrBefore_ge {t : JDate} :
    ∀ {l : List NPt} {p : NPt}, latestAtOrBefore t l = some p →
      ∀ q ∈ l, JDate.le q.date t = true → JDate.le q.date p.date = true := by
  intro l
  induction l with
  | nil => intro p h; simp [latestAtOrBefore] at h
  | cons a rest ih =>
      intro p h q hq hqt
      by_cases ha : JDate.le a.date t = true
      · rw [latestAtOrBefore, if_pos ha] at h
        rcases hr : latestAtOrBefore t rest with _ | q2
        · rw [hr] at h
          simp only [laterOf, Option.some.injEq] at h
          subst h
          rcases List.mem_cons.mp hq with rfl | hq2
          · exact JDate.le_refl _
          · exact absurd hqt (latestAtOrBefore_none_iff.mp hr q hq2)
        · rw [hr] at h
          simp only [laterOf, Option.some.injEq] at h
          by_cases hlt : JDate.lt q2.date a.date = true
          · rw [if_pos hlt] at h; subst h
            rcases List.mem_cons.mp hq with rfl | hq2
            · exact JDate.le_refl _
            · exact JDate.le_trans (ih hr q hq2 hqt) (JDate.le_of_lt hlt)
          · rw [if_neg hlt] at h; subst h
            rcases List.mem_cons.mp hq with rfl | hq2
            · rw [JDate.lt_iff_not_le] at hlt
              simpa using hlt
            · exact ih hr q hq2 hqt
      · rw [latestAtOrBefore, if_neg ha] at h
        rcases List.mem_cons.mp hq with rfl | hq2
        · exact absurd hqt ha
        · exact ih h q hq2 hqt

theorem latestAtOrBefore_perm {t : JDate} {l1 l2 : List NPt}
    (hperm : l1.Perm l2)
    (hu : List.Pairwise (fun a b : NPt => a.date ≠ b.date) l1) :
    latestAtOrBefore t l1 = latestAtOrBefore t l2 := by
  rcases h1 : latestAtOrBefore t l1 with _ | p1 <;>
    rcases h2 : latestAtOrBefore t l2 with _ | p2
  · rfl
  · have hm := latestAtOrBefore_mem h2
    exact absurd hm.2 (latestAtOrBefore_none_iff.mp h1 p2 (hperm.mem_iff.mpr hm.1))
  · have hm := latestAtOrBefore_mem h1
    exact absurd hm.2 (latestAtOrBefore_none_iff.mp h2 p1 (hperm.mem_iff.mp hm.1))
  · have hm1 := latestAtOrBefore_mem h1
    have hm2 := latestAtOrBefore_mem h2
    have h12 : JDate.le p1.date p2.date = true :=
      latestAtOrBefore_ge h2 p1 (hperm.mem_iff.mp hm1.1) hm1.2
    have h21 : JDate.le p2.date p1.date = true :=
      latestAtOrBefore_ge h1 p2 (hperm.mem_iff.mpr hm2.1) hm2.2
    have hdate : p1.date = p2.date := JDate.le_antisymm h12 h21
    have : p1 = p2 :=
      eq_of_mem_uniqueDates hu hm1.1 (hperm.mem_iff.mpr hm2.1) hdate
    rw [this]

theorem interpGo_cond_false {sorted : List NPt} (hs : List.Pairwise byDateN sorted)
    {t : JDate} {p : NPt} (hl : latestAtOrBefore t sorted = some p) :
    (match (sorted.head?).map NPt.date with
      | some fd => JDate.lt t fd
      | none => false) = false := by
  rcases sorted with _ | ⟨h0, rest⟩
  · simp [latestAtOrBefore] at hl
  · have hm := latestAtOrBefore_mem hl
    have hh0 : JDate.le h0.date p.date = true := by
      rcases List.mem_cons.mp hm.1 with rfl | hp2
      · exact JDate.le_refl _
      · exact List.rel_of_pairwise_cons hs hp2
    have hle : JDate.le h0.date t = true := JDate.le_trans hh0 hm.2
    have : ¬ JDate.lt t h0.date = true := fun hlt => (JDate.lt_iff_not_le.mp hlt) hle
    simpa using Bool.eq_false_iff.mpr this

theorem interpGo_eq (sorted : List NPt) (hs : List.Pairwise byDateN sorted)
    (ts : List JDate) :
    ∀ (src : List NPt) (last : Option JsNum),
      List.Pairwise byDateD ts →
      (∀ t ∈ ts, advanceSrc t src last = advanceSrc t sorted none) →
      interpGo ((sorted.head?).map NPt.date) ts src last =
        ts.map (fun t => ⟨t, fwdFillValue sorted t⟩) := by
  induction ts with
  | nil => intro src last _ _; rfl
  | cons t ts ih =>
      intro src last hts hinv
      have hst : advanceSrc t src last = advanceSrc t sorted none :=
        hinv t (List.mem_cons_self _ _)
      have hsnd : (advanceSrc t sorted none).2 =
          match latestAtOrBefore t sorted with
          | none => none
          | some p => p.value := advanceSrc_snd hs none
      have hval : (if (advanceSrc t src last).2.isNone ||
            (match (sorted.head?).map NPt.date with
              | some fd => JDate.lt t fd
              | none => false) then none
          else (advanceSrc t src last).2) = fwdFillValue sorted t := by
        rw [hst, hsnd, fwdFillValue]
        rcases hl : latestAtOrBefore t sorted with _ | p
        · simp
        · rcases hpv : p.value with _ | w
          · simp [hpv]
          · rw [interpGo_cond_false hs hl]
            simp [hpv]
      have htail : interpGo ((sorted.head?).map NPt.date) ts
            (advanceSrc t src last).1 (advanceSrc t src last).2 =
          ts.map (fun t => ⟨t, fwdFillValue sorted t⟩) := by
        refine ih (advanceSrc t src last).1 (advanceSrc t src last).2 hts.of_cons ?_
        intro t2 ht2
        rw [hst]
        exact advanceSrc_comp (List.rel_of_pairwise_cons hts ht2) sorted none
      have hunf : interpGo ((sorted.head?).map NPt.date) (t :: ts) src last =
          (⟨t, if (advanceSrc t src last).2.isNone ||
                (match (sorted.head?).map NPt.date with
                  | some fd => JDate.lt t fd
                  | none => false) then none
              else (advanceSrc t src last).2⟩ : NPt) ::
            interpGo ((sorted.head?).map NPt.date) ts (advanceSrc t src last).1
              (advanceSrc t src last).2 := rfl
      rw [hunf, List.map_cons, hval, htail]

/-- C2: forward-fill interpolation.  For a source series with unique dates
and an ascending target axis, `interpolateData` emits exactly one point
per target date, in order; a target before the earliest source date
(vacuously, for an empty source) gets `null`, and otherwise the value of
the latest source point with date `<=` the target (`fwdFillValue`); an
empty target axis gives an empty output. -/
theorem interpolateData_spec (src : List NPt) (targets : List JDate)
    (hu : List.Pairwise (fun a b : NPt => a.date ≠ b.date) src)
    (ht : List.Pairwise (fun a b : JDate => JDate.le a b = true) targets) :
    interpolateData src targets = targets.map (fun t => ⟨t, fwdFillValue src t⟩) := by
  have hsorted : List.Sorted byDateN (sortNPts src) := List.sorted_insertionSort byDateN src
  have hperm : (sortNPts src).Perm src := List.perm_insertionSort byDateN src
  have hlat : ∀ t, latestAtOrBefore t (sortNPts src) = latestAtOrBefore t src := by
    intro t
    refine latestAtOrBefore_perm hperm ?_
    exact (hperm.pairwise_iff (fun h => h.symm)).mpr hu
  rw [interpolateData, interpGo_eq (sortNPts src) hsorted targets (sortNPts src) none ht
      (fun t _ => rfl)]
  simp only [fwdFillValue, hlat]

/-- C8: interpolation is invariant under pre-sorting its source by date. -/
theorem interpolateData_sort_invariant (src : List NPt) (targets : List JDate)
    (hu : List.Pairwise (fun a b : NPt => a.date ≠ b.date) src) :
    interpolateData (sortNPts src) targets = interpolateData src targets := by
  have hsorted : List.Sorted byDateN (sortNPts src) := List.sorted_insertionSort byDateN src
  have hself : sortNPts (sortNPts src) = sortNPts src := List.Sorted.insertionSort_eq hsorted
  rw [interpolateData, interpolateData, hself]

theorem getD_map_range {α : Type} (n k : ℕ) (f : ℕ → α) (dflt : α) (hk : k < n) :
    ((List.range n).map f).getD k dflt = f k := by
  rw [List.getD_eq_getElem?_getD, List.getElem?_map, List.getElem?_range hk]
  rfl

theorem getD_eq_getElem {α : Type} (l : List α) (k : ℕ) (dflt : α) (hk : k < l.length) :
    l.getD k dflt = l[k] := by
  rw [List.getD_eq_getElem?_getD, List.getElem?_eq_getElem hk]
  rfl

/-- C3: TTM aggregation.  Fewer than 4 points yields the empty list;
otherwise, with `s` the input sorted ascending by date (here: a sorted
permutation of the input), one point per index `i` from 3 to `n-1`, with
date `s[i].date` and value `s[i] + s[i-1] + s[i-2] + s[i-3]`; on exactly 4
points, exactly one point carrying their sum and the latest date. -/
theorem calculateTTM_spec (data : List FPt) :
    (data.length < 4 → calculateTTM data = []) ∧
    (4 ≤ data.length →
      (sortFPts data).Perm data ∧
      List.Pairwise byDateF (sortFPts data) ∧
      (calculateTTM data).length = data.length - 3 ∧
      ∀ k, k < data.length - 3 →
        (calculateTTM data).getD k fdflt =
          { date := ((sortFPts data).getD (k + 3) fdflt).date,
            value := jsAdd (jsAdd (jsAdd ((sortFPts data).getD (k + 3) fdflt).value
              ((sortFPts data).getD (k + 2) fdflt).value)
              ((sortFPts data).getD (k + 1) fdflt).value)
              ((sortFPts data).getD k fdflt).value }) ∧
    (data.length = 4 →
      calculateTTM data =
        [{ date := ((sortFPts data).getD 3 fdflt).date,
           value := jsAdd (jsAdd (jsAdd ((sortFPts data).getD 3 fdflt).value
             ((sortFPts data).getD 2 fdflt).value)
             ((sortFPts data).getD 1 fdflt).value)
             ((sortFPts data).getD 0 fdflt).value }] ∧
      ∀ p ∈ data, JDate.le p.date (((sortFPts data).getD 3 fdflt).date) = true) := by
  have hperm : (sortFPts data).Perm data := List.perm_insertionSort byDateF data
  have hsorted : List.Sorted byDateF (sortFPts data) := List.sorted_insertionSort byDateF data
  have hlen : (sortFPts data).length = data.length := hperm.length_eq
  refine ⟨fun h4 => ?_, fun h4 => ?_, fun h4 => ?_⟩
  · rw [calculateTTM, if_pos h4]
  · have hnot : ¬ data.length < 4 := not_lt.mpr h4
    have hunf : calculateTTM data =
        (List.range ((sortFPts data).length - 3)).map (fun k =>
          { date := ((sortFPts data).getD (k + 3) fdflt).date,
            value := jsAdd (jsAdd (jsAdd ((sortFPts data).getD (k + 3) fdflt).value
              ((sortFPts data).getD (k + 2) fdflt).value)
              ((sortFPts data).getD (k + 1) fdflt).value)
              ((sortFPts data).getD k fdflt).value }) := by
      rw [calculateTTM, if_neg hnot]
    refine ⟨hperm, hsorted, ?_, ?_⟩
    · rw [hunf, List.length_map, List.length_range, hlen]
    · intro k hk
      have hk2 : k < (sortFPts data).length - 3 := by omega
      rw [hunf, getD_map_range _ k _ _ hk2]
  · have hnot : ¬ data.length < 4 := by omega
    have hunf : calculateTTM data =
        (List.range ((sortFPts data).length - 3)).map (fun k =>
          { date := ((sortFPts data).getD (k + 3) fdflt).date,
            value := jsAdd (jsAdd (jsAdd ((sortFPts data).getD (k + 3) fdflt).value
              ((sortFPts data).getD (k + 2) fdflt).value)
              ((sortFPts data).getD (k + 1) fdflt).value)
              ((sortFPts data).getD k fdflt).value }) := by
      rw [calculateTTM, if_neg hnot]
    constructor
    · rw [hunf, hlen, h4]
      rfl
    · intro p hp
      have hp2 : p ∈ sortFPts data := hperm.mem_iff.mpr hp
      obtain ⟨i, hi, hpi⟩ := List.getElem_of_mem hp2
      have hi4 : i < 4 := by omega
      have h3 : 3 < (sortFPts data).length := by omega
      rw [getD_eq_getElem _ _ _ h3]
      rcases Nat.lt_or_ge i 3 with hlt | hge
      · have hrel := List.pairwise_iff_getElem.mp hsorted i 3 hi h3 hlt
        rw [hpi] at hrel
        exact hrel
      · have hieq : i = 3 := by omega
        subst hieq
        rw [← hpi]
        exact JDate.le_refl _

/-- Concrete two-point annual source series (mirrors the repository's
interpolation test data). -/
def srcW : List NPt :=
  [⟨⟨2022, 12, 31⟩, some (.fin 100)⟩, ⟨⟨2023, 12, 31⟩, some (.fin 200)⟩]

/-- Concrete five-date monthly target axis. -/
def targetsW : List JDate :=
  [⟨2022, 11, 30⟩, ⟨2022, 12, 31⟩, ⟨2023, 1, 31⟩, ⟨2023, 12, 31⟩, ⟨2024, 1, 31⟩]

/-- Concrete four-point quarterly series (mirrors the repository's TTM
test data, scaled to exact rationals). -/
def ttmW : List FPt :=
  [⟨⟨2023, 3, 31⟩, .fin 1⟩, ⟨⟨2023, 6, 30⟩, .fin (qmk 11 10)⟩,
   ⟨⟨2023, 9, 30⟩, .fin (qmk 12 10)⟩, ⟨⟨2023, 12, 31⟩, .fin (qmk 13 10)⟩]

/-- Witness for C2: forward-fill of a two-point source over five target
dates, evaluated concretely. -/
theorem interpolateData_spec_witness :
    List.Pairwise (fun a b : NPt => a.date ≠ b.date) srcW ∧
    List.Pairwise (fun a b : JDate => JDate.le a b = true) targetsW ∧
    interpolateData srcW targetsW =
      [⟨⟨2022, 11, 30⟩, none⟩, ⟨⟨2022, 12, 31⟩, some (.fin 100)⟩,
       ⟨⟨2023, 1, 31⟩, some (.fin 100)⟩, ⟨⟨2023, 12, 31⟩, some (.fin 200)⟩,
       ⟨⟨2024, 1, 31⟩, some (.fin 200)⟩] :=
  ⟨by decide, by decide,
    (interpolateData_spec srcW targetsW (by decide) (by decide)).trans (by decide)⟩

/-- Witness for C8: pre-sorting the source leaves the interpolation output
unchanged on a concrete instance. -/
theorem interpolateData_sort_invariant_witness :
    List.Pairwise (fun a b : NPt => a.date ≠ b.date) srcW ∧
    interpolateData (sortNPts srcW) targetsW = interpolateData srcW targetsW :=
  ⟨by decide, interpolateData_sort_invariant srcW targetsW (by decide)⟩

/-- Witness for C3: TTM of exactly four quarterly points is one point
carrying their sum (`1 + 1.1 + 1.2 + 1.3 = 4.6`) at the latest date. -/
theorem calculateTTM_spec_witness :
    ttmW.length = 4 ∧ calculateTTM ttmW = [⟨⟨2023, 12, 31⟩, .fin (qmk 23 5)⟩] :=
  ⟨by decide, ((calculateTTM_spec ttmW).2.2 (by decide)).1.trans (by decide)⟩

/-! ## Ratio evaluation (the `derived_ratio` stage of
`processFinancialData`) -/

/-- JS `Map`/object insertion: update the existing binding in place,
otherwise append. -/
def jsSet {κ α : Type} [DecidableEq κ] : List (κ × α) → κ → α → List (κ × α)
  | [], k, v => [(k, v)]
  | p :: ps, k, v => if p.1 = k then (k, v) :: ps else p :: jsSet ps k v

/-- JS `new Map(entries)`: later duplicate entries win, at the first
insertion position. -/
def jsFromList {κ α : Type} [DecidableEq κ] (entries : List (κ × α)) : List (κ × α) :=
  entries.foldl (fun m p => jsSet m p.1 p.2) []

/-- Default nullable point used to model in-bounds JS array indexing. -/
def ndflt : NPt := ⟨⟨0, 0, 0⟩, none⟩

/-- One output point of the ratio stage:
`(num != null && den != null && den !== 0) ? {date, value: num / den} : {date, value: null}`.
An outer `none` is a missing map entry (`undefined`); an inner `none` is a
stored `null`. -/
def ratioPoint (numLk denLk : Option (Option JsNum)) (date : JDate) : NPt :=
  match numLk, denLk with
  | some (some n), some (some dv) =>
      if dv = .fin 0 then ⟨date, none⟩ else ⟨date, some (jsDiv n dv)⟩
  | _, _ => ⟨date, none⟩

/-- The ratio stage of `processFinancialData`: build date-keyed maps of
both operands and divide pointwise over the price-date axis. -/
def ratioEval (numEntries denEntries : List (JDate × Option JsNum))
    (priceDates : List JDate) : List NPt :=
  priceDates.map (fun date =>
    ratioPoint (assocFirst (jsFromList numEntries) date)
      (assocFirst (jsFromList denEntries) date) date)

/-- The date-keyed map the ratio stage builds from an interpolated
series. -/
def seriesDateMap (s : List NPt) : List (JDate × Option JsNum) :=
  jsFromList (s.map (fun p => (p.date, p.value)))

/-- The ratio stage applied to two already-interpolated series. -/
def ratioOfSeries (numS denS : List NPt) (priceDates : List JDate) : List NPt :=
  ratioEval (numS.map (fun p => (p.date, p.value))) (denS.map (fun p => (p.date, p.value)))
    priceDates

/-- C1 counterexample: with an interpolated numerator value of `Infinity`
at the shared date and denominator `2`, the ratio evaluator emits
`Infinity`, not `null`: the finiteness guard stated by the claim does not
exist in the code. -/
theorem ratioOfSeries_claim_counterexample :
    ratioOfSeries [⟨⟨2023, 1, 31⟩, some (.inf true)⟩]
        [⟨⟨2023, 1, 31⟩, some (.fin 2)⟩] [⟨2023, 1, 31⟩] =
      [⟨⟨2023, 1, 31⟩, some (.inf true)⟩] ∧
    (JsNum.inf true).isFiniteb = false :=
  ⟨by decide, by decide⟩

/-- C1 (amended): each emitted point carries the axis date; the value is
`num / den` exactly when both map lookups yield non-null values and the
denominator is not exactly `0`; in every other case — denominator missing,
`null` or exactly `0`, or numerator missing or `null` — the value is
`null`.  The guard checks nothing else: in particular there is no
finiteness guard, so non-finite operands propagate. -/
theorem ratioOfSeries_spec (numS denS : List NPt) (priceDates : List JDate) :
    (ratioOfSeries numS denS priceDates).length = priceDates.length ∧
    ∀ k, ∀ hk : k < priceDates.length,
      ((ratioOfSeries numS denS priceDates).getD k ndflt).date = priceDates[k] ∧
      (∀ n dv,
        assocFirst (seriesDateMap numS) priceDates[k] = some (some n) →
        assocFirst (seriesDateMap denS) priceDates[k] = some (some dv) →
        dv ≠ .fin 0 →
        ((ratioOfSeries numS denS priceDates).getD k ndflt).value = some (jsDiv n dv)) ∧
      ((assocFirst (seriesDateMap denS) priceDates[k] = none ∨
        assocFirst (seriesDateMap denS) priceDates[k] = some none ∨
        assocFirst (seriesDateMap denS) priceDates[k] = some (some (.fin 0)) ∨
        assocFirst (seriesDateMap numS) priceDates[k] = none ∨
        assocFirst (seriesDateMap numS) priceDates[k] = some none) →
        ((ratioOfSeries numS denS priceDates).getD k ndflt).value = none) := by
  have hlen : (ratioOfSeries numS denS priceDates).length = priceDates.length := by
    rw [ratioOfSeries, ratioEval, List.length_map]
  refine ⟨hlen, fun k hk => ?_⟩
  have hout : (ratioOfSeries numS denS priceDates).getD k ndflt =
      ratioPoint (assocFirst (seriesDateMap numS) priceDates[k])
        (assocFirst (seriesDateMap denS) priceDates[k]) priceDates[k] := by
    rw [ratioOfSeries, ratioEval, getD_eq_getElem _ _ _ (by rw [List.length_map]; exact hk),
      List.getElem_map]
    rfl
  refine ⟨?_, ?_, ?_⟩
  · rw [hout]
    rcases assocFirst (seriesDateMap numS) priceDates[k] with _ | (_ | n) <;>
      rcases assocFirst (seriesDateMap denS) priceDates[k] with _ | (_ | dv) <;>
      simp [ratioPoint] <;> split <;> rfl
  · intro n dv hn hd hdv
    rw [hout, hn, hd]
    simp [ratioPoint, hdv]
  · intro hcase
    rw [hout]
    rcases hcase with h | h | h | h | h <;> rw [h] <;>
      first
      | (rcases assocFirst (seriesDateMap numS) priceDates[k] with _ | (_ | n) <;>
          simp [ratioPoint])
      | (rcases assocFirst (seriesDateMap denS) priceDates[k] with _ | (_ | dv) <;>
          simp [ratioPoint])

/-- Witness for C1 (amended) at numerator `10`, denominator `2` on a
one-date axis: the emitted value is `10 / 2`. -/
theorem ratioOfSeries_spec_witness :
    (ratioOfSeries [⟨⟨2023, 1, 31⟩, some (.fin 10)⟩] [⟨⟨2023, 1, 31⟩, some (.fin 2)⟩]
        [⟨2023, 1, 31⟩]).length = 1 ∧
    ((ratioOfSeries [⟨⟨2023, 1, 31⟩, some (.fin 10)⟩] [⟨⟨2023, 1, 31⟩, some (.fin 2)⟩]
        [⟨2023, 1, 31⟩]).getD 0 ndflt).value = some (.fin 5) :=
  ⟨(ratioOfSeries_spec [⟨⟨2023, 1, 31⟩, some (.fin 10)⟩] [⟨⟨2023, 1, 31⟩, some (.fin 2)⟩]
      [⟨2023, 1, 31⟩]).1,
    (((ratioOfSeries_spec [⟨⟨2023, 1, 31⟩, some (.fin 10)⟩] [⟨⟨2023, 1, 31⟩, some (.fin 2)⟩]
        [⟨2023, 1, 31⟩]).2 0 (by decide)).2.1 (.fin 10) (.fin 2) (by decide) (by decide)
        (by decide)).trans (by decide)⟩

/-! ## Custom/derived combiner (`calculateCustomMetric`) -/

/-- Pre-interpolation metric data: a date-keyed object or an array of
points (the two series representations flowing through the source). -/
inductive MetricData where
  | obj (entries : List (JDate × JsNum))
  | arr (pts : List FPt)
deriving DecidableEq, Repr

/-- The combiner operation of `calculateCustomMetric`. -/
inductive COp where
  | subtract
  | divide
deriving DecidableEq, Repr

/-- `toMap` of `calculateCustomMetric`: the `[year, value]` entries fed to
`new Map` (arrays point-wise, objects entry-wise; the year is
`new Date(date).getFullYear()`). -/
def toMapEntries : MetricData → List (ℤ × JsNum)
  | .arr l => l.map (fun p => (p.date.y, p.value))
  | .obj l => l.map (fun p => (p.1.y, p.2))

/-- The `originalDate` selection of `calculateCustomMetric`: the matching
date is taken from `data1` when it is an array, otherwise from `data2`
when that is an array, otherwise from the keys of the object `data1`. -/
def originalDateFor (data1 data2 : MetricData) (y : ℤ) : Option JDate :=
  match data1, data2 with
  | .arr l1, _ => (l1.find? (fun it => decide (it.date.y = y))).map (·.date)
  | .obj _, .arr l2 => (l2.find? (fun it => decide (it.date.y = y))).map (·.date)
  | .obj l1, .obj _ => (l1.map (·.1)).find? (fun dt => decide (dt.y = y))

/-- The year-matching loop of `calculateCustomMetric` once both operand
series are present: iterate the first operand's year map, look the year up
in the second operand's year map, and write `val1 - val2` (subtract) or
`val1 / val2` (divide, guarded by `val2 !== 0`) under the selected
original date. -/
def customCombine (data1 data2 : MetricData) (op : COp) : List (JDate × JsNum) :=
  (jsFromList (toMapEntries data1)).foldl (fun result yv =>
    match assocFirst (jsFromList (toMapEntries data2)) yv.1 with
    | none => result
    | some val2 =>
      match originalDateFor data1 data2 yv.1 with
      | none => result
      | some od =>
        match op with
        | .subtract => jsSet result od (jsSub yv.2 val2)
        | .divide => if val2 = .fin 0 then result else jsSet result od (jsDiv yv.2 val2)) []

theorem jsSet_append {κ α : Type} [DecidableEq κ] :
    ∀ (m : List (κ × α)) (k : κ) (v : α), (∀ p ∈ m, p.1 ≠ k) → jsSet m k v = m ++ [(k, v)]
  | [], _, _, _ => rfl
  | p :: ps, k, v, h => by
      rw [jsSet, if_neg (h p (List.mem_cons_self _ _)),
        jsSet_append ps k v (fun q hq => h q (List.mem_cons_of_mem _ hq))]
      rfl

theorem foldl_jsSet_fresh {κ α : Type} [DecidableEq κ] :
    ∀ (l : List (κ × α)) (acc : List (κ × α)),
      List.Pairwise (fun a b => a.1 ≠ b.1) l →
      (∀ p ∈ acc, ∀ q ∈ l, p.1 ≠ q.1) →
      l.foldl (fun m p => jsSet m p.1 p.2) acc = acc ++ l := by
  intro l
  induction l with
  | nil => intro acc _ _; simp
  | cons q l ih =>
      intro acc hpw hdis
      have hfresh : ∀ p ∈ acc, p.1 ≠ q.1 :=
        fun p hp => hdis p hp q (List.mem_cons_self _ _)
      have hstep : jsSet acc q.1 q.2 = acc ++ [q] := by
        rw [jsSet_append acc q.1 q.2 hfresh]
      rw [List.foldl_cons, hstep, ih (acc ++ [q]) hpw.of_cons ?_]
      · simp
      · intro p hp r hr
        rcases List.mem_append.mp hp with hp2 | hp2
        · exact hdis p hp2 r (List.mem_cons_of_mem _ hr)
        · have : p = q := by simpa using hp2
          subst this
          exact List.rel_of_pairwise_cons hpw hr

theorem jsFromList_eq_self {κ α : Type} [DecidableEq κ] (l : List (κ × α))
    (h : List.Pairwise (fun a b => a.1 ≠ b.1) l) : jsFromList l = l := by
  have := foldl_jsSet_fresh l [] h (by intro p hp; cases hp)
  simpa [jsFromList] using this

theorem originalDateFor_year {data1 data2 : MetricData} {y : ℤ} {od : JDate}
    (h : originalDateFor data1 data2 y = some od) : od.y = y := by
  rcases data1 with l1 | l1
  · rcases data2 with l2 | l2
    · simp only [originalDateFor] at h
      simpa using List.find?_some h
    · simp only [originalDateFor] at h
      rcases hf : l2.find? (fun it => decide (it.date.y = y)) with _ | it
      · rw [hf] at h; cases h
      · rw [hf] at h
        have hit : it.date = od := by simpa using h
        have hy := List.find?_some hf
        simp only [decide_eq_true_eq] at hy
        rw [← hit]
        exact hy
  · simp only [originalDateFor] at h
    rcases hf : l1.find? (fun it => decide (it.date.y = y)) with _ | it
    · rw [hf] at h; cases h
    · rw [hf] at h
      have hit : it.date = od := by simpa using h
      have hy := List.find?_some hf
      simp only [decide_eq_true_eq] at hy
      rw [← hit]
      exact hy

/-- C4 counterexample: with the first operand a date-keyed object
(`{2023-12-31: 1000}`) and the second an array (`[{2023-06-30, 100}]`),
dividing keys the result by the SECOND operand's date `2023-06-30`, not
the first operand's original date as claimed. -/
theorem customCombine_claim_counterexample :
    customCombine (.obj [(⟨2023, 12, 31⟩, .fin 1000)])
        (.arr [⟨⟨2023, 6, 30⟩, .fin 100⟩]) .divide =
      [(⟨2023, 6, 30⟩, .fin 10)] ∧
    (⟨2023, 6, 30⟩ : JDate) ≠ ⟨2023, 12, 31⟩ :=
  ⟨by decide, by decide⟩

/-- C4 (amended): for operands with at most one point per calendar year,
the combiner emits one entry per first-operand year having a matching
second-operand year, in first-operand order, with value `val1 - val2`
(subtract) or `val1 / val2` (divide, a zero `val2` silently dropping the
entry); the entry's key is the matching date of the first operand when it
is an array — and when both operands are objects, the first operand's
matching key — but when the first operand is an object and the second an
array, the key is the second operand's matching date
(`originalDateFor`). -/
theorem customCombine_spec (data1 data2 : MetricData) (op : COp)
    (h1 : List.Pairwise (fun a b : ℤ × JsNum => a.1 ≠ b.1) (toMapEntries data1))
    (h2 : List.Pairwise (fun a b : ℤ × JsNum => a.1 ≠ b.1) (toMapEntries data2)) :
    customCombine data1 data2 op =
      (toMapEntries data1).filterMap (fun yv =>
        (assocFirst (toMapEntries data2) yv.1).bind (fun val2 =>
          (originalDateFor data1 data2 yv.1).bind (fun od =>
            match op with
            | .subtract => some (od, jsSub yv.2 val2)
            | .divide =>
                if val2 = .fin 0 then none else some (od, jsDiv yv.2 val2)))) := by
  have hmap2 : jsFromList (toMapEntries data2) = toMapEntries data2 :=
    jsFromList_eq_self _ h2
  have hmap1 : jsFromList (toMapEntries data1) = toMapEntries data1 :=
    jsFromList_eq_self _ h1
  rw [customCombine, hmap1, hmap2]
  have main : ∀ (l : List (ℤ × JsNum)) (acc : List (JDate × JsNum)),
      List.Pairwise (fun a b => a.1 ≠ b.1) l →
      (∀ p ∈ acc, ∀ yv ∈ l, p.1.y ≠ yv.1) →
      l.foldl (fun result yv =>
        match assocFirst (toMapEntries data2) yv.1 with
        | none => result
        | some val2 =>
          match originalDateFor data1 data2 yv.1 with
          | none => result
          | some od =>
            match op with
            | .subtract => jsSet result od (jsSub yv.2 val2)
            | .divide =>
                if val2 = .fin 0 then result else jsSet result od (jsDiv yv.2 val2)) acc =
        acc ++ l.filterMap (fun yv =>
          (assocFirst (toMapEntries data2) yv.1).bind (fun val2 =>
            (originalDateFor data1 data2 yv.1).bind (fun od =>
              match op with
              | .subtract => some (od, jsSub yv.2 val2)
              | .divide =>
                  if val2 = .fin 0 then none else some (od, jsDiv yv.2 val2)))) := by
    intro l
    induction l with
    | nil => intro acc _ _; simp
    | cons yv l ih =>
        intro acc hpw hdis
        have hdis2 : ∀ p ∈ acc, ∀ q ∈ l, p.1.y ≠ q.1 :=
          fun p hp q hq => hdis p hp q (List.mem_cons_of_mem _ hq)
        rw [List.foldl_cons, List.filterMap_cons]
        rcases hv2 : assocFirst (toMapEntries data2) yv.1 with _ | val2
        · simp only [hv2, Option.none_bind]
          exact ih acc hpw.of_cons hdis2
        · rcases hod : originalDateFor data1 data2 yv.1 with _ | od
          · simp only [hv2, hod, Option.some_bind, Option.none_bind]
            exact ih acc hpw.of_cons hdis2
          · have hody : od.y = yv.1 := originalDateFor_year hod
            have hins : ∀ v, jsSet acc od v = acc ++ [(od, v)] := by
              intro v
              refine jsSet_append acc od v (fun p hp hpeq => ?_)
              exact hdis p hp yv (List.mem_cons_self _ _) (hpeq ▸ hody)
            have hacc2 : ∀ v, ∀ p ∈ acc ++ [(od, v)], ∀ q ∈ l, p.1.y ≠ q.1 := by
              intro v p hp q hq
              rcases List.mem_append.mp hp with hp2 | hp2
              · exact hdis p hp2 q (List.mem_cons_of_mem _ hq)
              · have : p = (od, v) := by simpa using hp2
                subst this
                simpa [hody] using List.rel_of_pairwise_cons hpw hq
            rcases op with _ | _
            · simp only [hv2, hod, Option.some_bind]
              rw [hins, ih (acc ++ [(od, jsSub yv.2 val2)]) hpw.of_cons (hacc2 _)]
              simp
            · by_cases hz : val2 = .fin 0
              · simp only [hv2, hod, Option.some_bind, if_pos hz]
                exact ih acc hpw.of_cons hdis2
              · simp only [hv2, hod, Option.some_bind, if_neg hz]
                rw [hins, ih (acc ++ [(od, jsDiv yv.2 val2)]) hpw.of_cons (hacc2 _)]
                simp
  exact main (toMapEntries data1) [] h1 (by intro p hp; cases hp)

/-- Witness for C4 (amended): with both operands as objects —
`{2023-12-31: 1000} / {2023-06-30: 100}` — the result is
`{2023-12-31: 10}`, keyed by the first operand's date. -/
theorem customCombine_spec_witness :
    List.Pairwise (fun a b : ℤ × JsNum => a.1 ≠ b.1)
      (toMapEntries (.obj [(⟨2023, 12, 31⟩, .fin 1000)])) ∧
    customCombine (.obj [(⟨2023, 12, 31⟩, .fin 1000)])
        (.obj [(⟨2023, 6, 30⟩, .fin 100)]) .divide =
      [(⟨2023, 12, 31⟩, .fin 10)] :=
  ⟨by decide,
    (customCombine_spec (.obj [(⟨2023, 12, 31⟩, .fin 1000)])
        (.obj [(⟨2023, 6, 30⟩, .fin 100)]) .divide (by decide) (by decide)).trans
      (by decide)⟩

/-! ## Formula evaluation (`calculateDerivedMetric`)

Formula strings are modelled at token level: a token is a maximal
alphanumeric identifier run (what `/[a-zA-Z0-9_]+/g` matches) or a single
operator/parenthesis character; whitespace is immaterial to every modelled
operation and omitted.  Identifier tokens are atomic, so the global string
replacement of an id by its parenthesised numeric value is id-for-id
substitution (exact whenever no id is a substring of another token, as in
the repository's catalog), and `executableFormula.split('/')` is a split
of the token list at `/` tokens.  The dynamic `eval` of the substituted
arithmetic string is modelled by a recursive-descent evaluator with JS
operator precedence; a `none` result models a thrown `SyntaxError`. -/

/-- A formula-string token: an identifier run or a single symbol. -/
inductive FTok where
  | id (s : String)
  | sym (c : Char)
deriving DecidableEq, Repr

/-- A substituted (executable) formula token: a numeric literal or a
symbol. -/
inductive ATok where
  | num (v : JsNum)
  | sym (c : Char)
deriving DecidableEq, Repr

/-- `formula.match(/[a-zA-Z0-9_]+/g)` deduplicated in first-occurrence
order (the key order of `dataReferences`). -/
def varsInFormula (f : List FTok) : List String :=
  (f.filterMap (fun t => match t with | .id s => some s | .sym _ => none)).dedup

/-- `dataReferences[varName][date]`: the outer `none` is `undefined`
(missing metric — treated as the empty object — or missing date), the
inner `none` a stored `null`. -/
def varValueAt (processedData : List (String × List (JDate × Option JsNum)))
    (v : String) (date : JDate) : Option (Option JsNum) :=
  assocFirst ((assocFirst processedData v).getD []) date

/-- The per-date guard of `calculateDerivedMetric`: every referenced
variable defined, non-null and not `NaN`
(`value === undefined || value === null || isNaN(value)` breaks). -/
def allPresent (f : List FTok)
    (processedData : List (String × List (JDate × Option JsNum))) (date : JDate) : Bool :=
  (varsInFormula f).all (fun v =>
    match varValueAt processedData v date with
    | some (some q) => !q.isNaNb
    | _ => false)

/-- The substituted executable formula: identifiers replaced by their
numeric values (the `NaN` filler is unreachable under `allPresent`). -/
def substFormula (f : List FTok)
    (processedData : List (String × List (JDate × Option JsNum))) (date : JDate) : List ATok :=
  f.map (fun t => match t with
    | .id v =>
        match varValueAt processedData v date with
        | some (some q) => ATok.num q
        | _ => ATok.num .nan
    | .sym c => ATok.sym c)

/-- `executableFormula.split('/')` at token level. -/
def splitAtDiv : List ATok → List (List ATok)
  | [] => [[]]
  | .sym '/' :: rest => [] :: splitAtDiv rest
  | t :: rest =>
      match splitAtDiv rest with
      | [] => [[t]]
      | part :: parts => (t :: part) :: parts

/-- Parser modes of the arithmetic-expression evaluator: primary / term /
expression entry points, plus the `* /` and `+ -` chain states carrying
the accumulated left value (JS left-to-right evaluation with standard
precedence). -/
inductive PMode where
  | prim
  | term
  | expr
  | termRest (acc : JsNum)
  | exprRest (acc : JsNum)

/-- Fuel-indexed recursive-descent evaluation of a substituted arithmetic
token list (the model of JS `eval` on the numeric expression string).
Returns the value and the unconsumed tokens; `none` is a syntax error. -/
def parseL : ℕ → PMode → List ATok → Option (JsNum × List ATok)
  | 0, _, _ => none
  | fuel + 1, .prim, ts =>
      match ts with
      | .num v :: rest => some (v, rest)
      | .sym '(' :: rest =>
          match parseL fuel .expr rest with
          | some (v, .sym ')' :: rest2) => some (v, rest2)
          | _ => none
      | .sym '-' :: rest =>
          match parseL fuel .prim rest with
          | some (v, rest2) => some (jsNeg v, rest2)
          | none => none
      | .sym '+' :: rest => parseL fuel .prim rest
      | _ => none
  | fuel + 1, .term, ts =>
      match parseL fuel .prim ts with
      | some (v, rest) => parseL fuel (.termRest v) rest
      | none => none
  | fuel + 1, .termRest v, ts =>
      match ts with
      | .sym '*' :: rest =>
          match parseL fuel .prim rest with
          | some (w, rest2) => parseL fuel (.termRest (jsMul v w)) rest2
          | none => none
      | .sym '/' :: rest =>
          match parseL fuel .prim rest with
          | some (w, rest2) => parseL fuel (.termRest (jsDiv v w)) rest2
          | none => none
      | _ => some (v, ts)
  | fuel + 1, .expr, ts =>
      match parseL fuel .term ts with
      | some (v, rest) => parseL fuel (.exprRest v) rest
      | none => none
  | fuel + 1, .exprRest v, ts =>
      match ts with
      | .sym '+' :: rest =>
          match parseL fuel .term rest with
          | some (w, rest2) => parseL fuel (.exprRest (jsAdd v w)) rest2
          | none => none
      | .sym '-' :: rest =>
          match parseL fuel .term rest with
          | some (w, rest2) => parseL fuel (.exprRest (jsSub v w)) rest2
          | none => none
      | _ => some (v, ts)

/-- JS `eval` of a substituted arithmetic token list: the whole input must
parse as one expression; `none` models a thrown error. -/
def evalTokens (ts : List ATok) : Option JsNum :=
  match parseL (4 * ts.length + 8) .expr ts with
  | some (v, []) => some v
  | _ => none

/-- The final guarded evaluation of `calculateDerivedMetric` for one date:
`!isNaN(result) && isFinite(result)` keeps the value, anything else
(including a thrown error) yields `null`. -/
def finalEval (ef : List ATok) : Option JsNum :=
  match evalTokens ef with
  | some r => if !r.isNaNb && r.isFiniteb then some r else none
  | none => none

/-- The per-date body of `calculateDerivedMetric`: the variable guard,
the single-`/` divisor pre-check (pre-evaluating everything to the right
of the sole `/`), and the final guarded evaluation. -/
def evalFormulaAt (f : List FTok)
    (processedData : List (String × List (JDate × Option JsNum))) (date : JDate) :
    Option JsNum :=
  if allPresent f processedData date then
    if (substFormula f processedData date).any (fun t => decide (t = ATok.sym '/')) then
      if (splitAtDiv (substFormula f processedData date)).length = 2 then
        match evalTokens ((splitAtDiv (substFormula f processedData date)).getD 1 []) with
        | none => none
        | some dv =>
            if dv = .fin 0 ∨ dv.isNaNb = true ∨ dv.isFiniteb = false then none
            else finalEval (substFormula f processedData date)
      else finalEval (substFormula f processedData date)
    else finalEval (substFormula f processedData date)
  else none

/-- The `{values, dates}` record returned by `calculateDerivedMetric`. -/
structure DMResult where
  values : List (Option JsNum)
  dates : List JDate
deriving DecidableEq, Repr

/-- `calculateDerivedMetric` from `processUtils.js`, at token level. -/
def calculateDerivedMetric (f : List FTok)
    (processedData : List (String × List (JDate × Option JsNum)))
    (commonDates : List JDate) : DMResult :=
  ⟨commonDates.map (evalFormulaAt f processedData), commonDates⟩

theorem isFiniteb_not_nan {r : JsNum} (h : r.isFiniteb = true) : r.isNaNb = false := by
  cases r <;> simp [JsNum.isFiniteb, JsNum.isNaNb] at h ⊢

theorem finalEval_some {ef : List ATok} {r : JsNum} (h : finalEval ef = some r) :
    r.isFiniteb = true ∧ r.isNaNb = false := by
  rw [finalEval] at h
  rcases he : evalTokens ef with _ | x
  · rw [he] at h; cases h
  · rw [he] at h
    have h2 : (if (!x.isNaNb && x.isFiniteb) = true then some x else none) = some r := h
    by_cases hg : (!x.isNaNb && x.isFiniteb) = true
    · rw [if_pos hg] at h2
      cases h2
      simp only [Bool.and_eq_true, Bool.not_eq_true'] at hg
      exact ⟨hg.2, hg.1⟩
    · rw [if_neg hg] at h2; cases h2

theorem evalFormulaAt_some {f : List FTok}
    {pd : List (String × List (JDate × Option JsNum))} {date : JDate} {r : JsNum}
    (h : evalFormulaAt f pd date = some r) :
    r.isFiniteb = true ∧ r.isNaNb = false := by
  rw [evalFormulaAt] at h
  by_cases h1 : allPresent f pd date = true
  · rw [if_pos h1] at h
    by_cases h2 : (substFormula f pd date).any (fun t => decide (t = ATok.sym '/')) = true
    · rw [if_pos h2] at h
      by_cases h3 : (splitAtDiv (substFormula f pd date)).length = 2
      · rw [if_pos h3] at h
        rcases he : evalTokens ((splitAtDiv (substFormula f pd date)).getD 1 []) with _ | dv
        · rw [he] at h; cases h
        · rw [he] at h
          have h5 : (if dv = .fin 0 ∨ dv.isNaNb = true ∨ dv.isFiniteb = false then none
              else finalEval (substFormula f pd date)) = some r := h
          by_cases h4 : dv = .fin 0 ∨ dv.isNaNb = true ∨ dv.isFiniteb = false
          · rw [if_pos h4] at h5; cases h5
          · rw [if_neg h4] at h5; exact finalEval_some h5
      · rw [if_neg h3] at h; exact finalEval_some h
    · rw [if_neg h2] at h; exact finalEval_some h
  · rw [if_neg h1] at h; cases h

theorem evalFormulaAt_precheck_none {f : List FTok}
    {pd : List (String × List (JDate × Option JsNum))} {date : JDate}
    (h1 : allPresent f pd date = true)
    (h2 : (substFormula f pd date).any (fun t => decide (t = ATok.sym '/')) = true)
    (h3 : (splitAtDiv (substFormula f pd date)).length = 2)
    (h4 : evalTokens ((splitAtDiv (substFormula f pd date)).getD 1 []) = none ∨
      ∃ dv, evalTokens ((splitAtDiv (substFormula f pd date)).getD 1 []) = some dv ∧
        (dv = .fin 0 ∨ dv.isFiniteb = false)) :
    evalFormulaAt f pd date = none := by
  rw [evalFormulaAt, if_pos h1, if_pos h2, if_pos h3]
  rcases h4 with h4 | ⟨dv, hdv, hbad⟩
  · rw [h4]
  · rw [hdv]
    have hcond : dv = .fin 0 ∨ dv.isNaNb = true ∨ dv.isFiniteb = false := by
      rcases hbad with hb | hb
      · exact Or.inl hb
      · exact Or.inr (Or.inr hb)
    show (if dv = .fin 0 ∨ dv.isNaNb = true ∨ dv.isFiniteb = false then none
        else finalEval (substFormula f pd date)) = none
    rw [if_pos hcond]

theorem evalFormulaAt_success {f : List FTok}
    {pd : List (String × List (JDate × Option JsNum))} {date : JDate}
    (h1 : allPresent f pd date = true)
    (hpre : (substFormula f pd date).any (fun t => decide (t = ATok.sym '/')) = true →
      (splitAtDiv (substFormula f pd date)).length = 2 →
      ∃ dv, evalTokens ((splitAtDiv (substFormula f pd date)).getD 1 []) = some dv ∧
        dv ≠ .fin 0 ∧ dv.isFiniteb = true)
    (r : JsNum) (hr : evalTokens (substFormula f pd date) = some r)
    (hf : r.isFiniteb = true) :
    evalFormulaAt f pd date = some r := by
  have hfinal : finalEval (substFormula f pd date) = some r := by
    rw [finalEval, hr]
    show (if (!r.isNaNb && r.isFiniteb) = true then some r else none) = some r
    rw [isFiniteb_not_nan hf, hf]
    rfl
  rw [evalFormulaAt, if_pos h1]
  by_cases h2 : (substFormula f pd date).any (fun t => decide (t = ATok.sym '/')) = true
  · rw [if_pos h2]
    by_cases h3 : (splitAtDiv (substFormula f pd date)).length = 2
    · rw [if_pos h3]
      obtain ⟨dv, hdv, hnz, hfin⟩ := hpre h2 h3
      rw [hdv]
      have hok : ¬ (dv = .fin 0 ∨ dv.isNaNb = true ∨ dv.isFiniteb = false) := by
        push_neg
        exact ⟨hnz, by rw [isFiniteb_not_nan hfin]; simp, by rw [hfin]; simp⟩
      show (if dv = .fin 0 ∨ dv.isNaNb = true ∨ dv.isFiniteb = false then none
          else finalEval (substFormula f pd date)) = some r
      rw [if_neg hok]
      exact hfinal
    · rw [if_neg h3]
      exact hfinal
  · rw [if_neg h2]
    exact hfinal

/-- Concrete date used by the formula-evaluation instances. -/
def dW5 : JDate := ⟨2024, 1, 31⟩

/-- The formula `A / B` as tokens. -/
def fAB : List FTok := [.id "A", .sym '/', .id "B"]

/-- `{A: {d: 10}, B: {d: 2}}`. -/
def pdAB : List (String × List (JDate × Option JsNum)) :=
  [("A", [(dW5, some (.fin 10))]), ("B", [(dW5, some (.fin 2))])]

/-- `{A: {d: 10}, B: {d: 0}}`. -/
def pdAB0 : List (String × List (JDate × Option JsNum)) :=
  [("A", [(dW5, some (.fin 10))]), ("B", [(dW5, some (.fin 0))])]

/-- The formula `A / B + C` as tokens. -/
def fABC : List FTok := [.id "A", .sym '/', .id "B", .sym '+', .id "C"]

/-- `{A: {d: 10}, B: {d: 2}, C: {d: -2}}`. -/
def pdABC : List (String × List (JDate × Option JsNum)) :=
  [("A", [(dW5, some (.fin 10))]), ("B", [(dW5, some (.fin 2))]),
   ("C", [(dW5, some (.fin (-2)))])]

/-- C5 counterexample: for `A / B + C` with `A=10, B=2, C=-2`, every
variable is defined and numeric and the arithmetic value is the finite
`10/2 + (-2) = 3`, yet the evaluator emits `null`: the divisor pre-check
evaluates the whole text after the `/` (here `(2) + (-2) = 0`), not the
division's divisor. -/
theorem calculateDerivedMetric_claim_counterexample :
    allPresent fABC pdABC dW5 = true ∧
    evalTokens (substFormula fABC pdABC dW5) = some (.fin 3) ∧
    calculateDerivedMetric fABC pdABC [dW5] = ⟨[none], [dW5]⟩ :=
  ⟨by decide, by decide, by decide⟩

/-- C5 (amended): per target date, the result is `null` when any referenced
variable is missing, `null` or `NaN` there; emitted values are always
finite and never `NaN` (so never `Infinity`, and no exception escapes);
when the substituted formula contains exactly one `/`, the entire token
sequence to its right is pre-evaluated as the divisor and the date is
nulled when that value fails to evaluate, is `0`, or is non-finite; when
all variables are present, the pre-check (if applicable) passes, and the
whole expression evaluates to a finite value, that value is emitted. -/
theorem calculateDerivedMetric_spec (f : List FTok)
    (pd : List (String × List (JDate × Option JsNum))) (dates : List JDate) :
    (calculateDerivedMetric f pd dates).dates = dates ∧
    (calculateDerivedMetric f pd dates).values.length = dates.length ∧
    ∀ k, ∀ hk : k < dates.length,
      (allPresent f pd dates[k] = false →
        (calculateDerivedMetric f pd dates).values.getD k none = none) ∧
      (∀ r, (calculateDerivedMetric f pd dates).values.getD k none = some r →
        r.isFiniteb = true ∧ r.isNaNb = false) ∧
      (allPresent f pd dates[k] = true →
        (substFormula f pd dates[k]).any (fun t => decide (t = ATok.sym '/')) = true →
        (splitAtDiv (substFormula f pd dates[k])).length = 2 →
        (evalTokens ((splitAtDiv (substFormula f pd dates[k])).getD 1 []) = none ∨
          ∃ dv, evalTokens ((splitAtDiv (substFormula f pd dates[k])).getD 1 []) = some dv ∧
            (dv = .fin 0 ∨ dv.isFiniteb = false)) →
        (calculateDerivedMetric f pd dates).values.getD k none = none) ∧
      (allPresent f pd dates[k] = true →
        ((substFormula f pd dates[k]).any (fun t => decide (t = ATok.sym '/')) = true →
          (splitAtDiv (substFormula f pd dates[k])).length = 2 →
          ∃ dv, evalTokens ((splitAtDiv (substFormula f pd dates[k])).getD 1 []) = some dv ∧
            dv ≠ .fin 0 ∧ dv.isFiniteb = true) →
        ∀ r, evalTokens (substFormula f pd dates[k]) = some r → r.isFiniteb = true →
          (calculateDerivedMetric f pd dates).values.getD k none = some r) := by
  refine ⟨rfl, by rw [calculateDerivedMetric]; exact List.length_map _ _, fun k hk => ?_⟩
  have hget : (calculateDerivedMetric f pd dates).values.getD k none =
      evalFormulaAt f pd dates[k] := by
    rw [calculateDerivedMetric]
    rw [getD_eq_getElem _ _ _ (by rw [List.length_map]; exact hk), List.getElem_map]
  refine ⟨?_, ?_, ?_, ?_⟩
  · intro h1
    rw [hget, evalFormulaAt, if_neg (by rw [h1]; simp)]
  · intro r hr
    rw [hget] at hr
    exact evalFormulaAt_some hr
  · intro h1 h2 h3 h4
    rw [hget]
    exact evalFormulaAt_precheck_none h1 h2 h3 h4
  · intro h1 hpre r hr hf
    rw [hget]
    exact evalFormulaAt_success h1 hpre r hr hf

/-- Witness for C5 (amended): `A / B` with `A=10, B=2` yields `5`; with
`B=0` the divisor pre-check yields `null`. -/
theorem calculateDerivedMetric_spec_witness :
    allPresent fAB pdAB dW5 = true ∧
    (calculateDerivedMetric fAB pdAB [dW5]).values.getD 0 none = some (.fin 5) ∧
    (calculateDerivedMetric fAB pdAB0 [dW5]).values.getD 0 none = none :=
  ⟨by decide,
    ((calculateDerivedMetric_spec fAB pdAB [dW5]).2.2 0 (by decide)).2.2.2 (by decide)
      (fun _ _ => ⟨.fin 2, by decide, by decide, by decide⟩) (.fin 5) (by decide) (by decide),
    ((calculateDerivedMetric_spec fAB pdAB0 [dW5]).2.2 0 (by decide)).2.2.1 (by decide)
      (by decide) (by decide) (Or.inr ⟨.fin 0, by decide, Or.inl rfl⟩)⟩

/-! ## String utilities (structurally recursive models of the JS string
operations used by the pipeline) -/

/-- `String.prototype.trim`. -/
def myTrim (s : String) : String :=
  ⟨((s.data.dropWhile (fun c => c.isWhitespace)).reverse.dropWhile
      (fun c => c.isWhitespace)).reverse⟩

/-- `String.prototype.startsWith`. -/
def myStartsWith (pre s : String) : Bool := pre.data.isPrefixOf s.data

/-- Split a character list at the first occurrence of `sep`: the part
before and the part after, or `none` when `sep` does not occur. -/
def breakOnSep (sep : List Char) : List Char → Option (List Char × List Char)
  | [] => none
  | c :: rest =>
      if sep.isPrefixOf (c :: rest) then some ([], (c :: rest).drop sep.length)
      else
        match breakOnSep sep rest with
        | some (pre, post) => some (c :: pre, post)
        | none => none

/-- The first two fields of `s.split(sep)` (the only fields the source
ever destructures); the second is `none` when the separator does not
occur (JS `undefined`). -/
def jsSplitFirstTwo (sep : List Char) (s : String) : String × Option String :=
  match breakOnSep sep s.data with
  | none => (s, none)
  | some (pre, post) =>
      match breakOnSep sep post with
      | none => (⟨pre⟩, some ⟨post⟩)
      | some (pre2, _) => (⟨pre⟩, some ⟨pre2⟩)

/-- Parse a non-empty digit run. -/
def digitsToNat (cs : List Char) : Option ℕ :=
  if cs.isEmpty then none
  else
    cs.foldl (fun acc c =>
      match acc with
      | some n => if c.isDigit then some (n * 10 + (c.toNat - 48)) else none
      | none => none) (some 0)

/-- Modelled `new Date(s)` validity and value: ISO `YYYY-MM-DD` parsing
(JS accepts further formats; this repository's data is ISO). -/
def parseDate (s : String) : Option JDate :=
  match breakOnSep ['-'] s.data with
  | none => none
  | some (ys, rest) =>
      match breakOnSep ['-'] rest with
      | none => none
      | some (ms, ds) =>
          match digitsToNat ys, digitsToNat ms, digitsToNat ds with
          | some yn, some mn, some dn =>
              if 1 ≤ mn ∧ mn ≤ 12 ∧ 1 ≤ dn ∧ dn ≤ 31 then some ⟨yn, mn, dn⟩ else none
          | _, _, _ => none

/-- `parseFloat` on a character list: optional sign, digits, optional
fractional digits, prefix-parsed; `NaN` when no digits occur.  Exponent
notation and `Infinity` are not modelled. -/
def parseFloatChars (cs0 : List Char) : JsNum :=
  let signed : Bool × List Char :=
    match cs0 with
    | '-' :: t => (true, t)
    | '+' :: t => (false, t)
    | _ => (false, cs0)
  let intDigits := signed.2.takeWhile (fun c => c.isDigit)
  let rest := signed.2.dropWhile (fun c => c.isDigit)
  let fracDigits : List Char :=
    match rest with
    | '.' :: t => t.takeWhile (fun c => c.isDigit)
    | _ => []
  if intDigits.isEmpty ∧ fracDigits.isEmpty then .nan
  else
    let n : ℕ := intDigits.foldl (fun acc c => acc * 10 + (c.toNat - 48)) 0
    let fr : ℕ := fracDigits.foldl (fun acc c => acc * 10 + (c.toNat - 48)) 0
    let mag : ℤ := (n : ℤ) * ((10 ^ fracDigits.length : ℕ) : ℤ) + (fr : ℤ)
    .fin (qmk (if signed.1 then -mag else mag) (10 ^ fracDigits.length))

/-- JS `parseFloat` of an extracted JSON value: numbers pass through,
strings are prefix-parsed, everything else (including `undefined`) is
`NaN`. -/
def jsParseFloat : Option JVal → JsNum
  | some (.num q) => .fin q
  | some (.str s) => parseFloatChars (s.data.dropWhile (fun c => c.isWhitespace))
  | _ => .nan

/-- `findValidDate` from `processUtils.js`: the first candidate key whose
value is a string trimming to a non-empty, non-`"None"` string that parses
as a valid date; that trimmed string is returned.  (The JS argument may be
a single key or a list; the function's first line normalises to a list,
modelled by taking the list directly.) -/
def findValidDate (item : JVal) (potentialDateKeys : List String) : Option String :=
  potentialDateKeys.findSome? (fun key =>
    if hasOwn (some item) key then
      match getVal (some item) key with
      | some (.str s) =>
          if myTrim s ≠ "" ∧ myTrim s ≠ "None" ∧ (parseDate (myTrim s)).isSome
          then some (myTrim s) else none
      | _ => none
    else none)

/-- `new Date(findValidDate(item, keys))` as used by the extraction
stage. -/
def findValidDateD (item : JVal) (keys : List String) : Option JDate :=
  (findValidDate item keys).bind (fun s => parseDate s)

/-! ## The pipeline (`processFinancialData`) -/

/-- A data container located at `source_path[0]` of a raw payload: a
date-keyed time-series map (keys modelled as parsed dates), an array of
report records, or any other value. -/
inductive Container where
  | tsMap (entries : List (JDate × JVal))
  | reports (items : List JVal)
  | leaf (v : JVal)

/-- A decoded raw API response: the error-sentinel flag
(`{error: ...}` truthiness) plus its top-level containers. -/
structure RawDoc where
  isError : Bool
  fields : List (String × Container)

/-- One entry of the metric catalog (`metricsConfig`); `mtype` is the
source's `type` field. -/
structure MetricConfig where
  id : String
  mtype : String
  source_function : String
  source_path : List String
  date_keys : List String
  isTimeSeries : Bool
  is_plottable : Bool
  fx_adjust : Bool
  calculation_basis : String
  calculation_formula : String
deriving DecidableEq, Repr

/-- JS truthiness of `dataContainer` (`if (!dataContainer) continue`). -/
def containerTruthy : Container → Bool
  | .leaf v => truthy (some v)
  | _ => true

/-- The entries iterated by `Object.keys(dataContainer).forEach` in the
time-series branch (only a date-keyed map is exercised there). -/
def tsEntriesOf : Container → List (JDate × JVal)
  | .tsMap entries => entries
  | _ => []

/-- `Array.isArray(dataContainer) ? dataContainer : []`. -/
def reportsOf : Container → List JVal
  | .reports items => items
  | _ => []

/-- The FX multiplier chosen for one metric:
`(fx_adjust === false) ? 1.0 : (isPrice ? 1.0 : fxRateUsed)`. -/
def fxToUseOf (mc : MetricConfig) (fxRateUsed : JsNum) : JsNum :=
  if mc.fx_adjust = false then .fin 1
  else if mc.source_function = "TIME_SERIES_MONTHLY_ADJUSTED" then .fin 1
  else fxRateUsed

/-- The time-series branch of raw extraction: in-window dates whose field
parses to a number are kept — with no FX multiplication. -/
def extractTS (mc : MetricConfig) (startDate endDate : JDate)
    (entries : List (JDate × JVal)) : List (JDate × JsNum) :=
  entries.filterMap (fun e =>
    if JDate.le startDate e.1 && JDate.le e.1 endDate then
      if (jsParseFloat (getNestedValue (some e.2) (mc.source_path.drop 1))).isNaNb then none
      else some (e.1, jsParseFloat (getNestedValue (some e.2) (mc.source_path.drop 1)))
    else none)

/-- The fundamentals branch of raw extraction: records with a valid
in-window date and a parseable value are kept, multiplied by the chosen
FX factor. -/
def extractFund (mc : MetricConfig) (fxToUse : JsNum) (startDate endDate : JDate)
    (items : List JVal) : List FPt :=
  items.filterMap (fun item =>
    match findValidDateD item mc.date_keys with
    | none => none
    | some dt =>
        if JDate.le startDate dt && JDate.le dt endDate then
          if (jsParseFloat (getNestedValue (some item) (mc.source_path.drop 1))).isNaNb then
            none
          else
            some ⟨dt, jsMul (jsParseFloat (getNestedValue (some item)
              (mc.source_path.drop 1))) fxToUse⟩
        else none)

/-- Extraction of one raw metric: resolve the payload (skipping missing
or error-sentinel responses), locate the container at `source_path[0]`
(skipping falsy ones), then extract by branch. -/
def extractOneMetric (mc : MetricConfig) (fxRateUsed : JsNum) (startDate endDate : JDate)
    (rawData : List (String × RawDoc)) : Option MetricData :=
  match assocFirst rawData mc.source_function with
  | none => none
  | some doc =>
      if doc.isError then none
      else
        match assocFirst doc.fields (mc.source_path.headD "") with
        | none => none
        | some c =>
            if containerTruthy c then
              if mc.isTimeSeries then
                some (.obj (extractTS mc startDate endDate (tsEntriesOf c)))
              else
                some (.arr (extractFund mc (fxToUseOf mc fxRateUsed) startDate endDate
                  (reportsOf c)))
            else none

/-- The raw-extraction stage: every catalog entry whose `type` starts with
`raw_`, in catalog order, written into the metric map. -/
def extractStage (rawData : List (String × RawDoc)) (fxRateUsed : JsNum)
    (startDate endDate : JDate) (metricsConfig : List MetricConfig) :
    List (String × MetricData) :=
  (metricsConfig.filter (fun m => myStartsWith "raw_" m.mtype)).foldl
    (fun acc mc =>
      match extractOneMetric mc fxRateUsed startDate endDate rawData with
      | none => acc
      | some md => jsSet acc mc.id md) []

/-- `calculateTTM(processedMetrics[mc.calculation_basis])`: a missing or
non-array basis yields `[]` (the `Array.isArray` guard inside
`calculateTTM`). -/
def ttmOfData : Option MetricData → List FPt
  | some (.arr l) => calculateTTM l
  | _ => []

/-- The TTM stage: every `derived_ttm` catalog entry, in order. -/
def ttmStage (metricsConfig : List MetricConfig) (m : List (String × MetricData)) :
    List (String × MetricData) :=
  (metricsConfig.filter (fun mc => decide (mc.mtype = "derived_ttm"))).foldl
    (fun acc mc =>
      jsSet acc mc.id (.arr (ttmOfData (assocFirst acc mc.calculation_basis)))) m

/-- `calculateCustomMetric(metricId, formula, operation)`: a no-op when
the catalog lacks the metric id or either operand series is absent.  (A
formula without the separator would fault in JS on `id2.trim()`; the four
fixed calls below never reach that case.) -/
def runCustomMetric (metricsConfig : List MetricConfig) (m : List (String × MetricData))
    (metricId formula : String) (op : COp) : List (String × MetricData) :=
  if (metricsConfig.find? (fun mc => decide (mc.id = metricId))).isNone then m
  else
    match jsSplitFirstTwo (match op with
        | .subtract => [' ', '-', ' ']
        | .divide => [' ', '/', ' ']) formula with
    | (_, none) => m
    | (id1, some id2) =>
        match assocFirst m (myTrim id1), assocFirst m (myTrim id2) with
        | some data1, some data2 => jsSet m metricId (.obj (customCombine data1 data2 op))
        | _, _ => m

/-- The four fixed custom-metric calls of `processFinancialData`. -/
def customStage (metricsConfig : List MetricConfig) (m : List (String × MetricData)) :
    List (String × MetricData) :=
  runCustomMetric metricsConfig
    (runCustomMetric metricsConfig
      (runCustomMetric metricsConfig
        (runCustomMetric metricsConfig m
          "rps" "annualRevenue / commonSharesOutstanding" .divide)
        "fcf" "operatingCashflow - capitalExpenditures" .subtract)
      "fcfPerShare" "fcf / commonSharesOutstanding" .divide)
    "ttmDividends" "dividendPayout / commonSharesOutstanding" .divide

/-- `Object.keys(processedMetrics['price'] || {}).sort()` — the string
sort of ISO date keys is their chronological sort. -/
def priceDatesOf (m : List (String × MetricData)) : List JDate :=
  match assocFirst m "price" with
  | some (.obj entries) => sortDates (entries.map (fun e => e.1))
  | _ => []

/-- Final per-metric data: carried over unchanged, or an
interpolated/ratio point series. -/
inductive OutData where
  | raw (md : MetricData)
  | ser (pts : List NPt)
deriving DecidableEq, Repr

/-- Membership in the `metricsToInterpolate` set. -/
def toInterpSet (metricsConfig : List MetricConfig) (metricId : String) : Bool :=
  metricsConfig.any (fun m =>
    decide (m.id = metricId) &&
      (m.is_plottable ||
        decide (m.id ∈ (["ttmEps", "rps", "fcf", "fcfPerShare"] : List String))))

/-- `Array.isArray(...) ? ... : Object.entries(...).map(([date, value]) => ({date, value}))`. -/
def dataAsArray : MetricData → List NPt
  | .arr l => l.map (fun p => ⟨p.date, some p.value⟩)
  | .obj l => l.map (fun e => ⟨e.1, some e.2⟩)

/-- The interpolation stage: each processed metric either carried over
(non-plottable non-special metrics, and `price` itself) or forward-filled
onto the price calendar. -/
def interpStage (metricsConfig : List MetricConfig) (m : List (String × MetricData))
    (priceDates : List JDate) : List (String × OutData) :=
  m.map (fun e =>
    (e.1,
      if !(toInterpSet metricsConfig e.1) || decide (e.1 = "price") then OutData.raw e.2
      else OutData.ser (interpolateData (dataAsArray e.2) priceDates)))

/-- The date→value entries the ratio stage reads from a final-map
entry. -/
def outDataEntries : OutData → List (JDate × Option JsNum)
  | .ser l => l.map (fun p => (p.date, p.value))
  | .raw (.arr l) => l.map (fun p => (p.date, some p.value))
  | .raw (.obj l) => l.map (fun e => (e.1, some e.2))

/-- The ratio stage: every `derived_ratio` catalog entry, in order,
skipped when the formula has no ` / ` or either operand is absent. -/
def ratioStage (metricsConfig : List MetricConfig) (im : List (String × OutData))
    (priceDates : List JDate) : List (String × OutData) :=
  (metricsConfig.filter (fun mc => decide (mc.mtype = "derived_ratio"))).foldl
    (fun acc mc =>
      match jsSplitFirstTwo [' ', '/', ' '] mc.calculation_formula with
      | (_, none) => acc
      | (p0, some p1) =>
          match assocFirst acc (myTrim p0), assocFirst acc (myTrim p1) with
          | some numData, some denData =>
              jsSet acc mc.id (.ser (ratioEval (outDataEntries numData)
                (outDataEntries denData) priceDates))
          | _, _ => acc) im

/-- `processFinancialData` from `processUtils.js`: extraction, TTM,
custom metrics, the fatal empty-price-calendar check, interpolation,
ratios. -/
def processFinancialData (rawData : List (String × RawDoc)) (fxRateUsed : JsNum)
    (startDate endDate : JDate) (metricsConfig : List MetricConfig) :
    Except String (List (String × OutData)) :=
  if (priceDatesOf (customStage metricsConfig (ttmStage metricsConfig
      (extractStage rawData fxRateUsed startDate endDate metricsConfig)))).isEmpty then
    .error "No price data available for timeframe."
  else
    .ok (ratioStage metricsConfig
      (interpStage metricsConfig
        (customStage metricsConfig (ttmStage metricsConfig
          (extractStage rawData fxRateUsed startDate endDate metricsConfig)))
        (priceDatesOf (customStage metricsConfig (ttmStage metricsConfig
          (extractStage rawData fxRateUsed startDate endDate metricsConfig)))))
      (priceDatesOf (customStage metricsConfig (ttmStage metricsConfig
        (extractStage rawData fxRateUsed startDate endDate metricsConfig)))))

/-! ## Association-list lemmas for the pipeline stages -/

theorem assocFirst_cons_ne {κ α : Type} [DecidableEq κ] {p : κ × α} (ps : List (κ × α))
    {key : κ} (h : ¬ p.1 = key) : assocFirst (p :: ps) key = assocFirst ps key := by
  rw [assocFirst, assocFirst, List.find?_cons_of_neg]
  simp [h]

theorem assocFirst_cons_eq {κ α : Type} [DecidableEq κ] {p : κ × α} (ps : List (κ × α))
    {key : κ} (h : p.1 = key) : assocFirst (p :: ps) key = some p.2 := by
  rw [assocFirst, List.find?_cons_of_pos]
  · rfl
  · simp [h]

theorem assocFirst_jsSet {κ α : Type} [DecidableEq κ] (m : List (κ × α)) (k : κ) (v : α)
    (key : κ) :
    assocFirst (jsSet m k v) key = if key = k then some v else assocFirst m key := by
  induction m with
  | nil =>
      by_cases hk : key = k
      · subst hk
        rw [jsSet, assocFirst_cons_eq _ rfl, if_pos rfl]
      · rw [jsSet, assocFirst_cons_ne _ (fun hc => hk hc.symm), if_neg hk]
  | cons p ps ih =>
      by_cases hpk : p.1 = k
      · rw [jsSet, if_pos hpk]
        by_cases hk : key = k
        · subst hk
          rw [assocFirst_cons_eq _ rfl, if_pos rfl]
        · rw [assocFirst_cons_ne _ (fun hc => hk hc.symm), if_neg hk,
            assocFirst_cons_ne _ (fun hc => hk (hc.symm.trans hpk))]
      · rw [jsSet, if_neg hpk]
        by_cases hpkey : p.1 = key
        · have hk : ¬ key = k := fun hc => hpk (hpkey.trans hc)
          rw [assocFirst_cons_eq _ hpkey, if_neg hk, assocFirst_cons_eq _ hpkey]
        · rw [assocFirst_cons_ne _ hpkey, ih]
          by_cases hk : key = k
          · rw [if_pos hk, if_pos hk]
          · rw [if_neg hk, if_neg hk, assocFirst_cons_ne _ hpkey]

theorem foldl_assoc_preserve {κ α β : Type} [DecidableEq κ] (key : κ) :
    ∀ (l : List β) (acc : List (κ × α)) (step : List (κ × α) → β → List (κ × α)),
      (∀ acc2 b, b ∈ l → assocFirst (step acc2 b) key = assocFirst acc2 key) →
      assocFirst (l.foldl step acc) key = assocFirst acc key := by
  intro l
  induction l with
  | nil => intro acc step _; rfl
  | cons b l ih =>
      intro acc step h
      rw [List.foldl_cons,
        ih (step acc b) step (fun a2 b2 hb2 => h a2 b2 (List.mem_cons_of_mem _ hb2))]
      exact h acc b (List.mem_cons_self _ _)

theorem eq_of_mem_pairwise_key {β κ : Type} (keyOf : β → κ) :
    ∀ {l : List β}, List.Pairwise (fun a b => keyOf a ≠ keyOf b) l →
      ∀ {p q : β}, p ∈ l → q ∈ l → keyOf p = keyOf q → p = q := by
  intro l
  induction l with
  | nil => intro _ p q hp; cases hp
  | cons a rest ih =>
      intro hu p q hp hq hkey
      have ha : ∀ r ∈ rest, keyOf a ≠ keyOf r := fun r hr => List.rel_of_pairwise_cons hu hr
      rcases List.mem_cons.mp hp with rfl | hp2
      · rcases List.mem_cons.mp hq with rfl | hq2
        · rfl
        · exact absurd hkey (ha q hq2)
      · rcases List.mem_cons.mp hq with rfl | hq2
        · exact absurd hkey.symm (ha p hp2)
        · exact ih hu.of_cons hp2 hq2 hkey

theorem extract_foldl_none (rawData : List (String × RawDoc)) (fx : JsNum) (sd ed : JDate) :
    ∀ (l : List MetricConfig) (acc : List (String × MetricData)) (key : String),
      (∀ mc ∈ l, mc.id = key → extractOneMetric mc fx sd ed rawData = none) →
      assocFirst acc key = none →
      assocFirst (l.foldl (fun acc mc =>
        match extractOneMetric mc fx sd ed rawData with
        | none => acc
        | some md2 => jsSet acc mc.id md2) acc) key = none := by
  intro l
  induction l with
  | nil => intro acc key _ hacc; exact hacc
  | cons mc l ih =>
      intro acc key h hacc
      rw [List.foldl_cons]
      rcases hx : extractOneMetric mc fx sd ed rawData with _ | md2
      · simp only [hx]
        exact ih _ key (fun mc2 hm2 => h mc2 (List.mem_cons_of_mem _ hm2)) hacc
      · simp only [hx]
        refine ih _ key (fun mc2 hm2 => h mc2 (List.mem_cons_of_mem _ hm2)) ?_
        rw [assocFirst_jsSet]
        by_cases hk : key = mc.id
        · have hnone := h mc (List.mem_cons_self _ _) hk.symm
          rw [hnone] at hx
          cases hx
        · rw [if_neg hk]
          exact hacc

theorem extractOneMetric_missing (mc : MetricConfig) (fx : JsNum) (sd ed : JDate)
    (rawData : List (String × RawDoc))
    (h : assocFirst rawData mc.source_function = none ∨
      ∃ doc, assocFirst rawData mc.source_function = some doc ∧
        (doc.isError = true ∨
          assocFirst doc.fields (mc.source_path.headD "") = none ∨
          ∃ c, assocFirst doc.fields (mc.source_path.headD "") = some c ∧
            containerTruthy c = false)) :
    extractOneMetric mc fx sd ed rawData = none := by
  rw [extractOneMetric]
  rcases h with h | ⟨doc, hd, hcase⟩
  · rw [h]
  · simp only [hd]
    rcases hcase with he | hc | ⟨c, hc, hf⟩
    · rw [if_pos he]
    · by_cases he : doc.isError = true
      · rw [if_pos he]
      · rw [if_neg he]
        simp only [hc]
    · by_cases he : doc.isError = true
      · rw [if_pos he]
      · rw [if_neg he]
        simp only [hc]
        rw [if_neg (by simp [hf])]

theorem runCustomMetric_preserve (cfg : List MetricConfig)
    (m : List (String × MetricData)) (metricId formula : String) (op : COp) (key : String)
    (h : ¬ key = metricId) :
    assocFirst (runCustomMetric cfg m metricId formula op) key = assocFirst m key := by
  rw [runCustomMetric.eq_def]
  by_cases hf : (cfg.find? (fun mc => decide (mc.id = metricId))).isNone = true
  · rw [if_pos hf]
  · rw [if_neg hf]
    split
    · rfl
    · split
      · rw [assocFirst_jsSet, if_neg h]
      · rfl

theorem ttmStage_preserve (cfg : List MetricConfig) (m : List (String × MetricData))
    (key : String)
    (h : ∀ mc ∈ cfg.filter (fun mc => decide (mc.mtype = "derived_ttm")), ¬ key = mc.id) :
    assocFirst (ttmStage cfg m) key = assocFirst m key := by
  rw [ttmStage]
  refine foldl_assoc_preserve key _ _ _ ?_
  intro acc2 mc hmc
  rw [assocFirst_jsSet, if_neg (h mc hmc)]

theorem ratioStage_preserve (cfg : List MetricConfig) (im : List (String × OutData))
    (priceDates : List JDate) (key : String)
    (h : ∀ mc ∈ cfg.filter (fun mc => decide (mc.mtype = "derived_ratio")), ¬ key = mc.id) :
    assocFirst (ratioStage cfg im priceDates) key = assocFirst im key := by
  rw [ratioStage]
  refine foldl_assoc_preserve key _ _ _ ?_
  intro acc2 mc hmc
  split
  · rfl
  · split
    · rw [assocFirst_jsSet, if_neg (h mc hmc)]
    · rfl

theorem assocFirst_map_keyed {κ α β : Type} [DecidableEq κ] (F : κ × α → β) :
    ∀ (m : List (κ × α)) (key : κ),
      assocFirst (m.map (fun e => (e.1, F e))) key =
        (m.find? (fun p => decide (p.1 = key))).map F := by
  intro m
  induction m with
  | nil => intro key; rfl
  | cons e m ih =>
      intro key
      by_cases hk : e.1 = key
      · simp only [List.map_cons]
        rw [@assocFirst_cons_eq κ β _ (e.1, F e) _ key hk,
          List.find?_cons_of_pos _ (by simp [hk])]
        rfl
      · simp only [List.map_cons]
        rw [@assocFirst_cons_ne κ β _ (e.1, F e) _ key hk,
          List.find?_cons_of_neg _ (by simp [hk]), ih]

theorem interpStage_none (cfg : List MetricConfig) (m : List (String × MetricData))
    (priceDates : List JDate) (key : String) (h : assocFirst m key = none) :
    assocFirst (interpStage cfg m priceDates) key = none := by
  rw [interpStage, assocFirst_map_keyed]
  rcases hf : m.find? (fun p => decide (p.1 = key)) with _ | p
  · rw [hf]
    rfl
  · rw [assocFirst, hf] at h
    cases h

/-- Catalog sanity assumed by the pipeline claims: unique metric ids; a
metric with id `price` is a raw time series; the four hard-coded custom
metric ids never name raw metrics. -/
def wellFormedCatalog (metricsConfig : List MetricConfig) : Prop :=
  List.Pairwise (fun a b : MetricConfig => a.id ≠ b.id) metricsConfig ∧
  (∀ m ∈ metricsConfig, m.id = "price" →
    myStartsWith "raw_" m.mtype = true ∧ m.isTimeSeries = true) ∧
  (∀ m ∈ metricsConfig,
    m.id ∈ (["rps", "fcf", "fcfPerShare", "ttmDividends"] : List String) →
    myStartsWith "raw_" m.mtype = false)

/-- The extracted price-series entries (empty when `price` is absent or
not a date-keyed object). -/
def priceEntriesOf (m : List (String × MetricData)) : List (JDate × JsNum) :=
  match assocFirst m "price" with
  | some (.obj entries) => entries
  | _ => []

theorem price_after_stages (cfg : List MetricConfig) (ext : List (String × MetricData))
    (hprice : ∀ m ∈ cfg, m.id = "price" →
      myStartsWith "raw_" m.mtype = true ∧ m.isTimeSeries = true) :
    assocFirst (customStage cfg (ttmStage cfg ext)) "price" = assocFirst ext "price" := by
  have h1 : assocFirst (ttmStage cfg ext) "price" = assocFirst ext "price" := by
    refine ttmStage_preserve cfg ext "price" ?_
    intro mc hmc heq
    have hmem := (List.mem_filter.mp hmc).1
    have hmt : mc.mtype = "derived_ttm" := by
      have := (List.mem_filter.mp hmc).2
      simpa using this
    have hsw := (hprice mc hmem heq.symm).1
    rw [hmt] at hsw
    exact absurd hsw (by decide)
  rw [customStage,
    runCustomMetric_preserve _ _ _ _ _ _ (by decide : ¬ "price" = "ttmDividends"),
    runCustomMetric_preserve _ _ _ _ _ _ (by decide : ¬ "price" = "fcfPerShare"),
    runCustomMetric_preserve _ _ _ _ _ _ (by decide : ¬ "price" = "fcf"),
    runCustomMetric_preserve _ _ _ _ _ _ (by decide : ¬ "price" = "rps"), h1]

/-- C6: pipeline failure policy.  Under a well-formed catalog, the run
fails (the thrown `'No price data available for timeframe.'`, modelled as
`Except.error`) exactly when the price series has zero dates after
extraction; and a raw metric whose payload is missing or carries the error
sentinel, or whose data container at `source_path[0]` is missing or falsy
(`if (!dataContainer) continue`), is simply absent from the returned map
of a successful run. -/
theorem processFinancialData_spec (rawData : List (String × RawDoc)) (fx : JsNum)
    (sd ed : JDate) (cfg : List MetricConfig) (hwf : wellFormedCatalog cfg) :
    ((processFinancialData rawData fx sd ed cfg).isOk = false ↔
      priceEntriesOf (extractStage rawData fx sd ed cfg) = []) ∧
    ∀ m ∈ cfg, myStartsWith "raw_" m.mtype = true →
      (assocFirst rawData m.source_function = none ∨
        ∃ doc, assocFirst rawData m.source_function = some doc ∧
          (doc.isError = true ∨
            assocFirst doc.fields (m.source_path.headD "") = none ∨
            ∃ c, assocFirst doc.fields (m.source_path.headD "") = some c ∧
              containerTruthy c = false)) →
      ∀ out, processFinancialData rawData fx sd ed cfg = .ok out →
        assocFirst out m.id = none := by
  obtain ⟨hu, hprice, hcustom⟩ := hwf
  have hpp := price_after_stages cfg (extractStage rawData fx sd ed cfg) hprice
  have hpd : priceDatesOf (customStage cfg (ttmStage cfg
      (extractStage rawData fx sd ed cfg))) =
      match assocFirst (extractStage rawData fx sd ed cfg) "price" with
      | some (.obj entries) => sortDates (entries.map (fun e => e.1))
      | _ => [] := by
    rw [priceDatesOf, hpp]
  constructor
  · rw [processFinancialData]
    by_cases hemp : (priceDatesOf (customStage cfg (ttmStage cfg
        (extractStage rawData fx sd ed cfg)))).isEmpty = true
    · rw [if_pos hemp]
      simp only [Except.isOk, Except.toBool, true_iff]
      rw [hpd] at hemp
      rw [priceEntriesOf]
      rcases hq : assocFirst (extractStage rawData fx sd ed cfg) "price" with _ | md
      · rfl
      · rcases md with entries | pts
        · rw [hq] at hemp
          have hlen : (sortDates (entries.map (fun e => e.1))).length = 0 := by
            rw [List.isEmpty_iff_length_eq_zero] at hemp
            exact hemp
          rw [sortDates] at hlen
          rw [(List.perm_insertionSort byDateD _).length_eq, List.length_map] at hlen
          exact List.length_eq_zero.mp hlen
        · rfl
    · rw [if_neg hemp]
      simp only [Except.isOk, Except.toBool, Bool.true_eq_false, false_iff]
      rw [hpd] at hemp
      rw [priceEntriesOf]
      rcases hq : assocFirst (extractStage rawData fx sd ed cfg) "price" with _ | md
      · rw [hq] at hemp
        exact absurd rfl hemp
      · rcases md with entries | pts
        · rw [hq] at hemp
          intro hnil
          have hnil2 : entries = [] := hnil
          refine hemp ?_
          show (sortDates (entries.map (fun e => e.1))).isEmpty = true
          rw [hnil2]
          rfl
        · rw [hq] at hemp
          exact absurd rfl hemp
  · intro m hm hraw hpay out hok
    rw [processFinancialData] at hok
    by_cases hemp : (priceDatesOf (customStage cfg (ttmStage cfg
        (extractStage rawData fx sd ed cfg)))).isEmpty = true
    · rw [if_pos hemp] at hok
      cases hok
    · rw [if_neg hemp] at hok
      cases hok
      have hne : ∀ idname, idname ∈ (["rps", "fcf", "fcfPerShare", "ttmDividends"] :
          List String) → ¬ m.id = idname := by
        intro idname hid heq
        have := hcustom m hm (heq ▸ hid)
        rw [hraw] at this
        cases this
      have hext : assocFirst (extractStage rawData fx sd ed cfg) m.id = none := by
        rw [extractStage]
        refine extract_foldl_none rawData fx sd ed _ [] m.id ?_ rfl
        intro mc hmc hid
        have hmemc := (List.mem_filter.mp hmc).1
        have : mc = m := eq_of_mem_pairwise_key MetricConfig.id hu hmemc hm hid
        subst this
        exact extractOneMetric_missing mc fx sd ed rawData hpay
      have httm : assocFirst (ttmStage cfg (extractStage rawData fx sd ed cfg)) m.id =
          none := by
        rw [ttmStage_preserve]
        · exact hext
        · intro mc hmc heq
          have hmemc := (List.mem_filter.mp hmc).1
          have hmt : mc.mtype = "derived_ttm" := by
            have := (List.mem_filter.mp hmc).2
            simpa using this
          have : mc = m := eq_of_mem_pairwise_key MetricConfig.id hu hmemc hm heq.symm
          subst this
          rw [hmt] at hraw
          exact absurd hraw (by decide)
      have hcust : assocFirst (customStage cfg (ttmStage cfg
          (extractStage rawData fx sd ed cfg))) m.id = none := by
        rw [customStage,
          runCustomMetric_preserve _ _ _ _ _ _ (hne "ttmDividends" (by simp)),
          runCustomMetric_preserve _ _ _ _ _ _ (hne "fcfPerShare" (by simp)),
          runCustomMetric_preserve _ _ _ _ _ _ (hne "fcf" (by simp)),
          runCustomMetric_preserve _ _ _ _ _ _ (hne "rps" (by simp)), httm]
      have hinterp : assocFirst (interpStage cfg (customStage cfg (ttmStage cfg
          (extractStage rawData fx sd ed cfg)))
          (priceDatesOf (customStage cfg (ttmStage cfg
            (extractStage rawData fx sd ed cfg)))) ) m.id = none :=
        interpStage_none _ _ _ _ hcust
      refine Eq.trans (ratioStage_preserve cfg _ _ m.id ?_) hinterp
      intro mc hmc heq
      have hmemc := (List.mem_filter.mp hmc).1
      have hmt : mc.mtype = "derived_ratio" := by
        have := (List.mem_filter.mp hmc).2
        simpa using this
      have : mc = m := eq_of_mem_pairwise_key MetricConfig.id hu hmemc hm heq.symm
      subst this
      rw [hmt] at hraw
      exact absurd hraw (by decide)

/-! ## Concrete pipeline data for the claim witnesses -/

/-- A monthly-adjusted price catalog entry. -/
def mcPrice : MetricConfig :=
  { id := "price", mtype := "raw_price",
    source_function := "TIME_SERIES_MONTHLY_ADJUSTED",
    source_path := ["Monthly Adjusted Time Series", "5. adjusted close"],
    date_keys := [], isTimeSeries := true, is_plottable := true, fx_adjust := true,
    calculation_basis := "", calculation_formula := "" }

/-- An annual-revenue fundamentals catalog entry. -/
def mcRev : MetricConfig :=
  { id := "annualRevenue", mtype := "raw_fundamental",
    source_function := "INCOME_STATEMENT",
    source_path := ["annualReports", "totalRevenue"],
    date_keys := ["fiscalDateEnding"], isTimeSeries := false, is_plottable := true,
    fx_adjust := true, calculation_basis := "", calculation_formula := "" }

/-- One fundamentals report record. -/
def itemW : JVal :=
  .obj [("fiscalDateEnding", .str "2023-01-31"), ("totalRevenue", .str "200")]

/-- A raw-data map with one price payload and one income statement. -/
def rawW : List (String × RawDoc) :=
  [("TIME_SERIES_MONTHLY_ADJUSTED",
    ⟨false, [("Monthly Adjusted Time Series",
      .tsMap [(⟨2023, 1, 31⟩, .obj [("5. adjusted close", .str "100")])])]⟩),
   ("INCOME_STATEMENT", ⟨false, [("annualReports", .reports [itemW])]⟩)]

/-- Window start for the pipeline witnesses. -/
def sdW : JDate := ⟨2023, 1, 1⟩

/-- Window end for the pipeline witnesses. -/
def edW : JDate := ⟨2023, 12, 31⟩

/-- Witness for C6 at a two-metric catalog: the catalog is well formed,
extraction yields one price entry, and the run succeeds. -/
theorem processFinancialData_spec_witness :
    wellFormedCatalog [mcPrice, mcRev] ∧
    priceEntriesOf (extractStage rawW (.fin (qmk 12 10)) sdW edW [mcPrice, mcRev]) =
      [(⟨2023, 1, 31⟩, .fin (qmk 100 1))] ∧
    (processFinancialData rawW (.fin (qmk 12 10)) sdW edW [mcPrice, mcRev]).isOk =
      true := by
  refine ⟨⟨by decide, by decide, by decide⟩, by decide, ?_⟩
  have h := (processFinancialData_spec rawW (.fin (qmk 12 10)) sdW edW [mcPrice, mcRev]
    ⟨by decide, by decide, by decide⟩).1
  rcases hb : (processFinancialData rawW (.fin (qmk 12 10)) sdW edW
      [mcPrice, mcRev]).isOk with _ | _
  · exact absurd (h.mp hb) (by decide)
  · rfl

/-- C7: FX conversion of fundamentals.  A report with a valid in-window
date and parseable value contributes the parsed value multiplied by the
chosen FX factor; that factor is the passed FX rate whenever `fx_adjust`
is not `false` and the metric is not the price series, and with
`fx_adjust: false` the stored value is exactly the parsed value. -/
theorem extractFund_fx_spec (mc : MetricConfig) (fx : JsNum) (sd ed : JDate)
    (items : List JVal) (item : JVal) (dt : JDate)
    (hmem : item ∈ items)
    (hdt : findValidDateD item mc.date_keys = some dt)
    (hwin : (JDate.le sd dt && JDate.le dt ed) = true)
    (hnan : (jsParseFloat (getNestedValue (some item) (mc.source_path.drop 1))).isNaNb
      = false) :
    (⟨dt, jsMul (jsParseFloat (getNestedValue (some item) (mc.source_path.drop 1)))
        (fxToUseOf mc fx)⟩ : FPt) ∈ extractFund mc (fxToUseOf mc fx) sd ed items ∧
    (mc.fx_adjust = true → ¬ mc.source_function = "TIME_SERIES_MONTHLY_ADJUSTED" →
      fxToUseOf mc fx = fx) ∧
    (mc.fx_adjust = false →
      jsMul (jsParseFloat (getNestedValue (some item) (mc.source_path.drop 1)))
        (fxToUseOf mc fx) =
        jsParseFloat (getNestedValue (some item) (mc.source_path.drop 1))) := by
  refine ⟨?_, ?_, ?_⟩
  · refine List.mem_filterMap.mpr ⟨item, hmem, ?_⟩
    simp only [hdt, hwin, hnan]
    rfl
  · intro h1 h2
    rw [fxToUseOf, if_neg (by simp [h1]), if_neg h2]
  · intro h0
    rw [fxToUseOf, if_pos h0]
    exact jsMul_one _ hnan

/-- Witness for C7: the concrete income-statement record is extracted at
2023-01-31 with value `200 * 1.2 = 240` under FX rate `1.2`. -/
theorem extractFund_fx_spec_witness :
    ((⟨⟨2023, 1, 31⟩, jsMul (jsParseFloat (getNestedValue (some itemW)
        (mcRev.source_path.drop 1))) (fxToUseOf mcRev (.fin (qmk 12 10)))⟩ : FPt) ∈
      extractFund mcRev (fxToUseOf mcRev (.fin (qmk 12 10))) sdW edW [itemW]) ∧
    jsMul (jsParseFloat (getNestedValue (some itemW) (mcRev.source_path.drop 1)))
      (fxToUseOf mcRev (.fin (qmk 12 10))) = .fin (qmk 240 1) := by
  refine ⟨(extractFund_fx_spec mcRev (.fin (qmk 12 10)) sdW edW [itemW] itemW
    ⟨2023, 1, 31⟩ (List.mem_singleton.mpr rfl) (by decide) (by decide)
    (by decide)).1, by decide⟩

/-- C10: the time-series branch applies no FX.  Extraction of a
time-series metric does not depend on the FX rate at all, and every
extracted point's value is exactly `parseFloat` of the record field at
`source_path[1]` of the matching raw entry. -/
theorem extractTS_no_fx (mc : MetricConfig) (fx1 fx2 : JsNum) (sd ed : JDate)
    (rawData : List (String × RawDoc)) (hts : mc.isTimeSeries = true) :
    extractOneMetric mc fx1 sd ed rawData = extractOneMetric mc fx2 sd ed rawData ∧
    ∀ (entries : List (JDate × JVal)) (dt : JDate) (v : JsNum),
      (dt, v) ∈ extractTS mc sd ed entries →
      v.isNaNb = false ∧
      ∃ rec, (dt, rec) ∈ entries ∧
        v = jsParseFloat (getNestedValue (some rec) (mc.source_path.drop 1)) := by
  constructor
  · simp [extractOneMetric.eq_def, hts]
  · intro entries dt v hmem
    obtain ⟨e, he, heq⟩ := List.mem_filterMap.mp hmem
    by_cases hw : (JDate.le sd e.1 && JDate.le e.1 ed) = true
    · simp only [hw, if_true] at heq
      by_cases hn : (jsParseFloat (getNestedValue (some e.2)
          (mc.source_path.drop 1))).isNaNb = true
      · rw [if_pos hn] at heq
        cases heq
      · rw [if_neg hn] at heq
        have heq2 := Option.some.inj heq
        injection heq2 with hd hv
        subst hd
        subst hv
        exact ⟨Bool.eq_false_iff.mpr hn, e.2, he, rfl⟩
    · simp [hw] at heq

/-- Witness for C10: the concrete price payload extracts identically under
two different FX rates, to the parsed adjusted close `100`. -/
theorem extractTS_no_fx_witness :
    extractOneMetric mcPrice (.fin (qmk 12 10)) sdW edW rawW =
      extractOneMetric mcPrice (.fin (qmk 3 1)) sdW edW rawW ∧
    extractOneMetric mcPrice (.fin (qmk 12 10)) sdW edW rawW =
      some (.obj [(⟨2023, 1, 31⟩, .fin (qmk 100 1))]) := by
  refine ⟨(extractTS_no_fx mcPrice (.fin (qmk 12 10)) (.fin (qmk 3 1)) sdW edW rawW
    (by decide)).1, by decide⟩

end Fink

